import Mathlib

/-!
GTaskQue: a two-buffer task batching queue

A shallow embedding of `src/gtaskque.h` (class template `GTaskQue<T,E>`).

Modelling conventions.

* `size_t` values are natural numbers.  Every counter of the class is bounded
  by the length of a container held in memory, so no wrap-around is reachable.
* `front_buffer` is the `std::list<pair<bool,T>>` of the source, as a `List`.
* `back_buffer` is the `std::vector<T*>` of the source.  A `T*` is either
  `nullptr` (`none`) or the address of the `second` component of a list node.
  List nodes never move; the node that was the `n`-th one ever appended to the
  list is given the address `n`.  The ghost field `popped` counts the nodes
  removed by `pop_front` so far, so the node at position `j` of `front_buffer`
  has address `popped + j`, and an address below `popped` is a dangling one.
* The executor is a function `execute : T → Int` (the returned status); the
  sequence of tasks it has been invoked on is recorded in a log.
* The mutex and the sleeps have no effect on a sequential run and are omitted;
  which steps are atomic is fixed where threads are modelled.
-/

namespace GTaskQue

/-- How an operation can end abnormally: a C++ `throw("...")`, a failed
`assert`, or undefined behaviour (dereferencing a null or dangling `T*`). -/
inductive Err where
  | thrown (msg : String)
  | assertion_failed (what : String)
  | undefined_behaviour (what : String)
  deriving DecidableEq, Repr

/-- The data members of `GTaskQue<T,E>` (lines 173-206), together with the
ghost counter `popped` that gives list nodes their addresses.  The executor
pointer (non-null in every constructed object) is the `execute` argument of
the executing operations; the platform mutex and thread handles carry no
information and are left out. -/
structure Que (T : Type) where
  delay_between_batch : Nat
  delay_in_batch : Nat
  autoexecution_command : Bool
  is_autoexecution_thread_running : Bool
  is_quit_requested : Bool
  size_back_buffer : Nat
  is_mutex_created : Bool
  index_executor : Nat
  front_buffer : List (Bool × T)
  back_buffer : List (Option Nat)
  popped : Nat
  deriving DecidableEq, Repr

variable {T : Type}

/-- The constructor `GTaskQue(_executor, _size_back_buffer)` for a non-null
executor (lines 290-311): `initialize()`, the two delays, the back buffer
filled with `_size_back_buffer` null pointers, and the mutex created. -/
def construct (_size_back_buffer : Nat) : Que T :=
  { delay_between_batch := 1
    delay_in_batch := 0
    autoexecution_command := false
    is_autoexecution_thread_running := false
    is_quit_requested := false
    size_back_buffer := _size_back_buffer
    is_mutex_created := true
    index_executor := 0
    front_buffer := []
    back_buffer := List.replicate _size_back_buffer none
    popped := 0 }

/-- `getFrontBufferSize()` (lines 351-357). -/
def getFrontBufferSize (q : Que T) : Nat := q.front_buffer.length

/-- `getBackBufferSize()` (lines 359-362). -/
def getBackBufferSize (q : Que T) : Nat := q.back_buffer.length

/-- The `for` loop of `isBackBufferExecuted()` (lines 699-704), over the slots
not yet inspected. -/
def isBackBufferExecutedFrom : List (Option Nat) → Bool
  | [] => true
  | some _ :: _ => false
  | none :: rest => isBackBufferExecutedFrom rest

/-- `isBackBufferExecuted()` (lines 697-705): no slot holds a task pointer. -/
def isBackBufferExecuted (q : Que T) : Bool := isBackBufferExecutedFrom q.back_buffer

/-- `areAllTasksExecuted()` (lines 561-564). -/
def areAllTasksExecuted (q : Que T) : Bool :=
  if isBackBufferExecuted q && getFrontBufferSize q == 0 then true else false

/-- Dereferencing a non-null `T*` held in a batch slot: the task of the list
node with that address, or `none` when no such node is in the list. -/
def deref (q : Que T) (p : Nat) : Option T :=
  if p < q.popped then none else (q.front_buffer.get? (p - q.popped)).map Prod.snd

/-- `pushBack(const T &_v)` (lines 400-423): status and new state. -/
def pushBack (q : Que T) (_v : T) : Int × Que T :=
  if q.is_quit_requested then (-1, q)
  else (0, { q with front_buffer := q.front_buffer ++ [(false, _v)] })

/-- The `while (citr != _v.end())` loop shared by the two collection
overloads of `pushBack`: one `push_back` per element, in iteration order. -/
def pushBackLoop : List T → List (Bool × T) → List (Bool × T)
  | [], fb => fb
  | x :: rest, fb => pushBackLoop rest (fb ++ [(false, x)])

/-- `pushBack(const vector<T> &_v)` (lines 425-452). -/
def pushBackVector (q : Que T) (_v : List T) : Int × Que T :=
  if q.is_quit_requested then (-1, q)
  else (0, { q with front_buffer := pushBackLoop _v q.front_buffer })

/-- `pushBack(const list<T> &_v)` (lines 454-481). -/
def pushBackList (q : Que T) (_v : List T) : Int × Que T :=
  if q.is_quit_requested then (-1, q)
  else (0, { q with front_buffer := pushBackLoop _v q.front_buffer })

/-- The `while (itr != front_buffer.end())` loop of `copyToBackBuffer`
(lines 676-692).  `itr` is the position of the iterator in `front_buffer`;
`pop_front` removes the head of the list, whatever `itr` points at, and the
iterator restarts at `begin()`.  The result is `copy_count` and the state at
loop exit. -/
def copyLoop (q : Que T) (itr : Nat) (copy_count : Nat) : Nat × Que T :=
  match h : q.front_buffer.get? itr with
  | none => (copy_count, q)
  | some (true, _) =>
    copyLoop { q with front_buffer := q.front_buffer.tail, popped := q.popped + 1 } 0 copy_count
  | some (false, t) =>
    if copy_count ≥ getBackBufferSize q then (copy_count, q)
    else
      copyLoop
        { q with
          front_buffer := q.front_buffer.set itr (true, t)
          back_buffer := q.back_buffer.set copy_count (some (q.popped + itr)) }
        (itr + 1) (copy_count + 1)
termination_by (q.front_buffer.length, q.front_buffer.length - itr)
decreasing_by
  · simp_wf
    have hlt : itr < q.front_buffer.length := by
      by_contra hge
      rw [List.get?_eq_none.mpr (by omega)] at h
      cases h
    left
    cases hfb : q.front_buffer with
    | nil => rw [hfb] at hlt; simp at hlt
    | cons a l => simp
  · simp_wf
    have hlt : itr < q.front_buffer.length := by
      by_contra hge
      rw [List.get?_eq_none.mpr (by omega)] at h
      cases h
    right
    omega

/-- `copyToBackBuffer()` (lines 663-695). -/
def copyToBackBuffer (q : Que T) : Except Err (Nat × Que T) :=
  if !isBackBufferExecuted q then .error (.thrown "BackBuffer is not executed yet")
  else
    .ok (copyLoop
      { q with
        back_buffer := List.replicate q.back_buffer.length none
        index_executor := 0 } 0 0)

/-- The `for` loop of `executeBatch` (lines 637-656) at loop index `i`, with
`n` bounding the iterations still possible (`getBackBufferSize() - i`).  The
result is the new state and the tasks the executor was invoked on so far. -/
def executeBatchLoop (execute : T → Int) : Nat → Nat → Que T → List T → Except Err (Que T × List T)
  | 0, _, q, log => .ok (q, log)
  | n + 1, i, q, log =>
    match q.back_buffer.get? i with
    | none => .ok (q, log)
    | some none => .ok (q, log)
    | some (some p) =>
      match deref q p with
      | none => .error (.undefined_behaviour "dangling task pointer")
      | some t =>
        let _status := execute t
        executeBatchLoop execute n (i + 1)
          { q with
            back_buffer := q.back_buffer.set i none
            index_executor := q.index_executor + 1 }
          (log ++ [t])

/-- `executeBatch()` (lines 631-661): status, new state, and the tasks the
executor was invoked on, in invocation order. -/
def executeBatch (execute : T → Int) (q : Que T) : Except Err (Int × Que T × List T) :=
  if q.index_executor ≥ getBackBufferSize q then
    .error (.thrown "Execution index is bigger than buffer size")
  else
    match executeBatchLoop execute (getBackBufferSize q - q.index_executor) q.index_executor q [] with
    | .error e => .error e
    | .ok (q1, log) => .ok (0, { q1 with index_executor := 0 }, log)

/-- `executeTask()` (lines 612-629): status, new state, and the tasks the
executor was invoked on. -/
def executeTask (execute : T → Int) (q : Que T) : Except Err (Int × Que T × List T) :=
  if areAllTasksExecuted q then .ok (-1, q, [])
  else
    match q.back_buffer.get? q.index_executor with
    | none => .error (.undefined_behaviour "back_buffer index out of range")
    | some none => .error (.undefined_behaviour "null task pointer")
    | some (some p) =>
      match deref q p with
      | none => .error (.undefined_behaviour "dangling task pointer")
      | some t =>
        let _status := execute t
        let q1 : Que T :=
          { q with
            back_buffer := q.back_buffer.set q.index_executor none
            index_executor := q.index_executor + 1 }
        if q1.index_executor ≥ getBackBufferSize q1 then
          .ok (0, { q1 with index_executor := 0 }, [t])
        else .ok (0, q1, [t])

/-- The locked region `if (que->isBackBufferExecuted()) que->copyToBackBuffer();`
of the worker (lines 123-127 and 139-143). -/
def swapIfExecuted (q : Que T) : Except Err (Que T) :=
  if isBackBufferExecuted q then
    match copyToBackBuffer q with
    | .error e => .error e
    | .ok (_, q1) => .ok q1
  else .ok q

/-- One pass through the body of the worker's loops: the locked swap, then
`executeBatch()` (lines 123-132 and 139-147). -/
def swapThenExecute (execute : T → Int) (q : Que T) : Except Err (Que T × List T) :=
  match swapIfExecuted q with
  | .error e => .error e
  | .ok q1 =>
    match executeBatch execute q1 with
    | .error e => .error e
    | .ok (_, q2, log) => .ok (q2, log)

/-- The drain loop `while(!que->areAllTasksExecuted()) { ... }` of the worker
(lines 137-155), run with no other thread interfering.  `fuel` bounds the
number of iterations: `none` means the loop is still running after `fuel`
iterations.  The list is the sequence of executed tasks. -/
def drainLoop (execute : T → Int) (fuel : Nat) (q : Que T) (log : List T) :
    Option (Except Err (Que T × List T)) :=
  if areAllTasksExecuted q then some (.ok (q, log))
  else
    match fuel with
    | 0 => none
    | n + 1 =>
      match swapThenExecute execute q with
      | .error e => some (.error e)
      | .ok (q1, l) => drainLoop execute n q1 (log ++ l)

/-- The argument of a `pushBack` call: one of the three overloads. -/
inductive PushArg (T : Type) where
  | single (v : T)
  | vector (v : List T)
  | list (v : List T)
  deriving DecidableEq, Repr

/-- The tasks a `pushBack` call carries, in the caller's order. -/
def PushArg.tasks : PushArg T → List T
  | .single v => [v]
  | .vector v => v
  | .list v => v

/-- A `pushBack` call, dispatched to its overload. -/
def pushBackArg (q : Que T) : PushArg T → Int × Que T
  | .single v => pushBack q v
  | .vector v => pushBackVector q v
  | .list v => pushBackList q v

/-- A sequence of `pushBack` calls from one thread: the returned statuses, in
call order, and the final state. -/
def pushBackAll : Que T → List (PushArg T) → List Int × Que T
  | q, [] => ([], q)
  | q, a :: rest =>
    let r := pushBackArg q a
    let rs := pushBackAll r.2 rest
    (r.1 :: rs.1, rs.2)

/-- The task each batch slot refers to: `none` for a slot that holds `nullptr`
(or a pointer to no node of the list), `some t` for a slot pointing at the
node that holds `t`. -/
def slotTasks (q : Que T) : List (Option T) :=
  q.back_buffer.map (fun slot => slot.bind (deref q))

/-- The not-yet-consumed tasks of the front buffer, in buffer order. -/
def pendingTasks (q : Que T) : List T :=
  (q.front_buffer.filter (fun e => !e.1)).map Prod.snd

/-- All tasks carried by a sequence of `pushBack` calls, in push order. -/
def pushedTasks : List (PushArg T) → List T
  | [] => []
  | a :: rest => a.tasks ++ pushedTasks rest

/-- Calling the single-task `pushBack` on each element of `_v`, in order. -/
def pushBackEach : Que T → List T → Que T
  | q, [] => q
  | q, x :: rest => pushBackEach (pushBack q x).2 rest

/-- The two static thread functions of the class (lines 101-171). -/
inductive ThreadFunction where
  | thread_function_execution
  | thread_function_autoexecution
  deriving DecidableEq, Repr

/-- `doAutoExecution(const bool &_v)` (lines 483-525): status, new state and
the threads created by the call.  The executor is non-null in every
constructed object, and thread creation is taken to succeed. -/
def doAutoExecution (q : Que T) (_v : Bool) : Int × Que T × List ThreadFunction :=
  if q.is_quit_requested && _v then (2, q, [])
  else if q.autoexecution_command && _v then (1, q, [])
  else
    let q1 : Que T := { q with autoexecution_command := _v }
    if q1.autoexecution_command == false then (0, q1, [])
    else (0, q1, [.thread_function_autoexecution])

/-- Modelled from the spec: the member `is_autoexecution_running` that
`doExecution` reads (lines 537-538) is declared nowhere in the class; the spec
takes it to be the running flag of the continuous path,
`is_autoexecution_thread_running`. -/
def is_autoexecution_running (q : Que T) : Bool := q.is_autoexecution_thread_running

/-- `doExecution()` (lines 527-559): status, state and the threads created. -/
def doExecution (q : Que T) : Except Err (Int × Que T × List ThreadFunction) :=
  if is_autoexecution_running q then
    .error (.thrown "Auto-execution is running, stop auto-execution first")
  else if !areAllTasksExecuted q then
    .error (.thrown "Execution is running, wait until finish or stop the execution")
  else .ok (0, q, [.thread_function_execution])

/-- Program points of a background thread.  `execution` is the body of
`thread_function_execution` (line 109); the others are the statements of
`thread_function_autoexecution`, named by what they are about to do:
`entry` line 120, `loop_swap` lines 123-127, `loop_execute` line 132,
`loop_test` lines 135-136, `drain_test` line 137, `drain_swap` lines 139-143,
`drain_execute` line 147, `leave` lines 157-158. -/
inductive Pc where
  | execution
  | entry
  | loop_swap
  | loop_execute
  | loop_test
  | drain_test
  | drain_swap
  | drain_execute
  | leave
  deriving DecidableEq, Repr

/-- Where a newly created thread starts. -/
def ThreadFunction.start : ThreadFunction → Pc
  | .thread_function_execution => .execution
  | .thread_function_autoexecution => .entry

/-- One step of a background thread at program point `pc`: the new state, the
tasks the executor was invoked on, and the next program point (`none` when the
thread function has returned). -/
def threadStep (execute : T → Int) (q : Que T) : Pc → Except Err (Que T × List T × Option Pc)
  | .execution =>
    match executeTask execute q with
    | .error e => .error e
    | .ok (_, q1, log) => .ok (q1, log, none)
  | .entry => .ok ({ q with is_autoexecution_thread_running := true }, [], some .loop_swap)
  | .loop_swap =>
    match swapIfExecuted q with
    | .error e => .error e
    | .ok q1 => .ok (q1, [], some .loop_execute)
  | .loop_execute =>
    match executeBatch execute q with
    | .error e => .error e
    | .ok (_, q1, log) => .ok (q1, log, some .loop_test)
  | .loop_test =>
    if q.is_quit_requested || q.autoexecution_command == false then .ok (q, [], some .drain_test)
    else .ok (q, [], some .loop_swap)
  | .drain_test =>
    if !areAllTasksExecuted q then .ok (q, [], some .drain_swap)
    else .ok (q, [], some .leave)
  | .drain_swap =>
    match swapIfExecuted q with
    | .error e => .error e
    | .ok q1 => .ok (q1, [], some .drain_execute)
  | .drain_execute =>
    match executeBatch execute q with
    | .error e => .error e
    | .ok (_, q1, log) => .ok (q1, log, some .drain_test)
  | .leave => .ok ({ q with is_autoexecution_thread_running := false }, [], none)

/-- A queue object together with its environment: the background threads
that were created and have not returned yet (each at its program point), and
the sequence of tasks the executor has been invoked on so far. -/
structure World (T : Type) where
  que : Que T
  threads : List Pc
  executed : List T
  deriving DecidableEq, Repr

/-- A freshly constructed queue: no background thread, nothing executed. -/
def World.fresh (_size_back_buffer : Nat) : World T :=
  { que := construct _size_back_buffer, threads := [], executed := [] }

/-- A single-task `pushBack` call by the host on the queue of the world. -/
def World.pushBack (w : World T) (_v : T) : Int × World T :=
  let r := GTaskQue.pushBack w.que _v
  (r.1, { w with que := r.2 })

/-- A `doAutoExecution` call by the host: the created thread joins the
threads of the world. -/
def World.doAutoExecution (w : World T) (_v : Bool) : Int × World T :=
  let r := GTaskQue.doAutoExecution w.que _v
  (r.1, { w with que := r.2.1, threads := w.threads ++ r.2.2.map ThreadFunction.start })

/-- A `doExecution` call by the host. -/
def World.doExecution (w : World T) : Except Err (Int × World T) :=
  match GTaskQue.doExecution w.que with
  | .error e => .error e
  | .ok (s, q1, created) =>
    .ok (s, { w with que := q1, threads := w.threads ++ created.map ThreadFunction.start })

/-- The `i`-th background thread of the world takes one step; a thread whose
function has returned leaves the world. -/
def World.stepThread (execute : T → Int) (w : World T) (i : Nat) : Except Err (World T) :=
  match w.threads.get? i with
  | none => .ok w
  | some pc =>
    match threadStep execute w.que pc with
    | .error e => .error e
    | .ok (q1, log, some pc1) =>
      .ok { que := q1, threads := w.threads.set i pc1, executed := w.executed ++ log }
    | .ok (q1, log, none) =>
      .ok { que := q1, threads := w.threads.eraseIdx i, executed := w.executed ++ log }

/-- The polling loop `while (is_autoexecution_thread_running) { usleep }` of
`quitThread` (lines 376-383) followed by line 385.  While the caller sleeps
the first background thread takes a step.  `none`: still polling after `fuel`
polls. -/
def quitWait (execute : T → Int) (fuel : Nat) (w : World T) : Option (Except Err (World T)) :=
  if w.que.is_autoexecution_thread_running then
    match fuel with
    | 0 => none
    | n + 1 =>
      match World.stepThread execute w 0 with
      | .error e => some (.error e)
      | .ok w1 => quitWait execute n w1
  else some (.ok { w with que := { w.que with is_quit_requested := false } })

/-- `quitThread()` (lines 364-386), called by the host. -/
def quitThread (execute : T → Int) (fuel : Nat) (w : World T) : Option (Except Err (World T)) :=
  if w.que.is_quit_requested then some (.ok w)
  else
    let w1 : World T := { w with que := { w.que with is_quit_requested := true } }
    quitWait execute fuel (World.doAutoExecution w1 false).2

/-- The destructor `~GTaskQue()` (lines 332-349): `quitThread()`, the
assertion on the front buffer, `destroyMutex()`. -/
def destruct (execute : T → Int) (fuel : Nat) (w : World T) : Option (Except Err (World T)) :=
  match quitThread execute fuel w with
  | none => none
  | some (.error e) => some (.error e)
  | some (.ok w1) =>
    if getFrontBufferSize w1.que == 0 then
      some (.ok { w1 with que := { w1.que with is_mutex_created := false } })
    else some (.error (.assertion_failed "getFrontBufferSize()==0"))

/-- The effect of `doExecution()` together with the body of the transient
thread it creates, run to completion with no other thread interfering. -/
def doExecutionAndRun (execute : T → Int) (w : World T) : Except Err (World T) :=
  match World.doExecution w with
  | .error e => .error e
  | .ok (_, w1) => World.stepThread execute w1 (w1.threads.length - 1)

/-- The queue of the concrete scenario: capacity 3 and the tasks `A` to `E`
pushed in that order, one `pushBack` call each. -/
def scenarioStart : Que Char :=
  pushBackEach (construct 3) ['A', 'B', 'C', 'D', 'E']

/-- A queue together with two ghost logs: the tasks the executor has been
invoked on, in invocation order, and the tasks of the accepted `pushBack`
calls, in push order. -/
structure Run (T : Type) where
  que : Que T
  executed : List T
  pushed : List T
  deriving DecidableEq, Repr

/-- The operations that act on the two buffers: a `pushBack` call of the host,
and `copyToBackBuffer`, `executeBatch`, `executeTask` of the executing thread. -/
inductive Op (T : Type) where
  | pushBack (a : PushArg T)
  | copyToBackBuffer
  | executeBatch
  | executeTask
  deriving DecidableEq, Repr

/-- The freshly constructed queue with empty logs. -/
def Run.fresh (_size_back_buffer : Nat) : Run T :=
  { que := construct _size_back_buffer, executed := [], pushed := [] }

/-- The state after an operation has returned; `none` when the operation does
not return (it throws or its behaviour is undefined).  A rejected `pushBack`
(status -1) returns and adds nothing to the log of pushed tasks. -/
def applyOp (execute : T → Int) (r : Run T) : Op T → Option (Run T)
  | .pushBack a =>
    let res := pushBackArg r.que a
    if res.1 == 0 then some { r with que := res.2, pushed := r.pushed ++ a.tasks }
    else some { r with que := res.2 }
  | .copyToBackBuffer =>
    match copyToBackBuffer r.que with
    | .error _ => none
    | .ok (_, q1) => some { r with que := q1 }
  | .executeBatch =>
    match executeBatch execute r.que with
    | .error _ => none
    | .ok (_, q1, log) => some { r with que := q1, executed := r.executed ++ log }
  | .executeTask =>
    match executeTask execute r.que with
    | .error _ => none
    | .ok (_, q1, log) => some { r with que := q1, executed := r.executed ++ log }

/-- A sequence of operations, each applied to the state the previous one
returned in. -/
def runOps (execute : T → Int) : Run T → List (Op T) → Option (Run T)
  | r, [] => some r
  | r, op :: rest =>
    match applyOp execute r op with
    | none => none
    | some r1 => runOps execute r1 rest

/-- The tasks the non-empty batch slots refer to, in slot order. -/
def slotRun (q : Que T) : List T :=
  (slotTasks q).filterMap id

/-- The invariant of the two buffers.  The front buffer is the consumed tasks
`cs` followed by the pending tasks `us`; the slots are `a` empty ones, then
pointers to the nodes at positions `a .. cs.length - 1`, then `c` empty ones;
the cursor is `a` while a slot is non-empty and always 0 or below the
capacity; and the executed tasks, the tasks still in the slots and the
pending tasks make up the pushed tasks. -/
def BufferInv (K : Nat) (r : Run T) : Prop :=
  ∃ (cs us : List T) (a c : Nat),
    a ≤ cs.length ∧
    cs.length + c = K ∧
    r.que.front_buffer = cs.map (fun t => (true, t)) ++ us.map (fun t => (false, t)) ∧
    r.que.back_buffer =
      List.replicate a none ++ (List.range' (r.que.popped + a) (cs.length - a)).map some ++
        List.replicate c none ∧
    (a < cs.length → r.que.index_executor = a) ∧
    (r.que.index_executor = 0 ∨ r.que.index_executor < K) ∧
    r.que.is_quit_requested = false ∧
    r.executed ++ cs.drop a ++ us = r.pushed

/-- The state `copyToBackBuffer()` leaves the object in, whether it returns or
throws.  The check of lines 665-668 is the first statement of the function:
when it throws, no assignment has been executed yet. -/
def copyToBackBufferState (q : Que T) : Que T :=
  if !isBackBufferExecuted q then q
  else
    (copyLoop
      { q with
        back_buffer := List.replicate q.back_buffer.length none
        index_executor := 0 } 0 0).2

/-- The `pop_front` calls made by the loop of `copyToBackBuffer` (same loop as
`copyLoop`), in order.  For each call: the position of the iterator `itr` at
the call (`pop_front` removes the node at position 0), and whether some batch
slot holds the address of the node that is removed. -/
def copyLoopPops (q : Que T) (itr : Nat) (copy_count : Nat) : List (Nat × Bool) :=
  match h : q.front_buffer.get? itr with
  | none => []
  | some (true, _) =>
    (itr, q.back_buffer.contains (some q.popped)) ::
      copyLoopPops { q with front_buffer := q.front_buffer.tail, popped := q.popped + 1 } 0
        copy_count
  | some (false, t) =>
    if copy_count ≥ getBackBufferSize q then []
    else
      copyLoopPops
        { q with
          front_buffer := q.front_buffer.set itr (true, t)
          back_buffer := q.back_buffer.set copy_count (some (q.popped + itr)) }
        (itr + 1) (copy_count + 1)
termination_by (q.front_buffer.length, q.front_buffer.length - itr)
decreasing_by
  · simp_wf
    have hlt : itr < q.front_buffer.length := by
      by_contra hge
      rw [List.get?_eq_none.mpr (by omega)] at h
      cases h
    left
    cases hfb : q.front_buffer with
    | nil => rw [hfb] at hlt; simp at hlt
    | cons a l => simp
  · simp_wf
    have hlt : itr < q.front_buffer.length := by
      by_contra hge
      rw [List.get?_eq_none.mpr (by omega)] at h
      cases h
    right
    omega

/-- The `pop_front` calls of one `copyToBackBuffer()` call (none when it
throws). -/
def copyToBackBufferPops (q : Que T) : List (Nat × Bool) :=
  if !isBackBufferExecuted q then []
  else
    copyLoopPops
      { q with
        back_buffer := List.replicate q.back_buffer.length none
        index_executor := 0 } 0 0

/-- An example state: capacity 2; the tasks 1, 2, 3 pushed as a vector, one
swap, one `executeBatch`, the task 4 pushed, and a second swap.  The slots
point at the nodes of 3 and 4. -/
def exampleRun : Run Nat :=
  { que :=
      { (construct 2 : Que Nat) with
        front_buffer := [(true, 3), (true, 4)]
        back_buffer := [some 2, some 3]
        popped := 2 }
    executed := [1, 2]
    pushed := [1, 2, 3, 4] }

/-- The operations that lead to `exampleRun`. -/
def exampleOps : List (Op Nat) :=
  [Op.pushBack (PushArg.vector [1, 2, 3]), Op.copyToBackBuffer, Op.executeBatch,
    Op.pushBack (PushArg.single 4), Op.copyToBackBuffer]

/-- Whether a `quitThread()` call made in this state takes the early return of
lines 366-369, the branch that prints `quit() is already requested`. -/
def quitAlreadyRequested (w : World T) : Bool := w.que.is_quit_requested

/-! ## Auxiliary lemmas -/
theorem copyLoop_end (q : Que T) (itr cc : Nat) (h : q.front_buffer.get? itr = none) :
    copyLoop q itr cc = (cc, q) := by
  rw [copyLoop]
  split
  · rfl
  · next heq => exact absurd (h.symm.trans heq) (by simp)
  · next heq => exact absurd (h.symm.trans heq) (by simp)

theorem copyLoop_consumed (q : Que T) (itr cc : Nat) (t : T)
    (h : q.front_buffer.get? itr = some (true, t)) :
    copyLoop q itr cc =
      copyLoop { q with front_buffer := q.front_buffer.tail, popped := q.popped + 1 } 0 cc := by
  rw [copyLoop]
  split
  · next heq => exact absurd (h.symm.trans heq) (by simp)
  · rfl
  · next heq => exact absurd (h.symm.trans heq) (by simp)

theorem copyLoop_full (q : Que T) (itr cc : Nat) (t : T)
    (h : q.front_buffer.get? itr = some (false, t)) (hfull : cc ≥ getBackBufferSize q) :
    copyLoop q itr cc = (cc, q) := by
  rw [copyLoop]
  split
  · next heq => exact absurd (h.symm.trans heq) (by simp)
  · next heq => exact absurd (h.symm.trans heq) (by simp)
  · rw [if_pos hfull]

theorem copyLoop_copy (q : Que T) (itr cc : Nat) (t : T)
    (h : q.front_buffer.get? itr = some (false, t)) (hroom : cc < getBackBufferSize q) :
    copyLoop q itr cc =
      copyLoop
        { q with
          front_buffer := q.front_buffer.set itr (true, t)
          back_buffer := q.back_buffer.set cc (some (q.popped + itr)) }
        (itr + 1) (cc + 1) := by
  rw [copyLoop]
  split
  · next heq => exact absurd (h.symm.trans heq) (by simp)
  · next heq => exact absurd (h.symm.trans heq) (by simp)
  · next t2 heq =>
    rw [h] at heq
    cases heq
    rw [if_neg (Nat.not_le.mpr hroom)]

theorem copyLoop_prune (cs : List T) :
    ∀ (q : Que T) (rest : List (Bool × T)) (cc : Nat),
      q.front_buffer = cs.map (fun t => (true, t)) ++ rest →
      copyLoop q 0 cc =
        copyLoop { q with front_buffer := rest, popped := q.popped + cs.length } 0 cc := by
  induction cs with
  | nil =>
    intro q rest cc h
    cases q
    simp_all
  | cons c cs ih =>
    intro q rest cc h
    have h0 : q.front_buffer.get? 0 = some (true, c) := by rw [h]; rfl
    rw [copyLoop_consumed q 0 cc c h0]
    rw [ih _ rest cc (by rw [h]; rfl)]
    simp [Nat.add_assoc, Nat.add_comm 1]

theorem get?_length_append {α : Type} (pre : List α) (a : α) (post : List α) :
    (pre ++ a :: post).get? pre.length = some a := by
  induction pre with
  | nil => rfl
  | cons x xs ih => simpa using ih

theorem set_length_append {α : Type} (pre : List α) (a b : α) (post : List α) :
    (pre ++ a :: post).set pre.length b = pre ++ b :: post := by
  induction pre with
  | nil => rfl
  | cons x xs ih => simp

theorem copyLoop_mark (us : List T) :
    ∀ (q : Que T) (pre : List (Bool × T)) (done : List (Option Nat)) (n : Nat),
      q.front_buffer = pre ++ us.map (fun t => (false, t)) →
      q.back_buffer = done ++ List.replicate n none →
      copyLoop q pre.length done.length =
        (done.length + min n us.length,
          { q with
            front_buffer :=
              pre ++ (us.take (min n us.length)).map (fun t => (true, t)) ++
                (us.drop (min n us.length)).map (fun t => (false, t))
            back_buffer :=
              done ++ (List.range' (q.popped + pre.length) (min n us.length)).map some ++
                List.replicate (n - min n us.length) none }) := by
  induction us with
  | nil =>
    intro q pre done n hf hb
    rw [copyLoop_end q _ _ (by rw [hf]; simp)]
    cases q
    simp_all
  | cons u us ih =>
    intro q pre done n hf hb
    have hget : q.front_buffer.get? pre.length = some (false, u) := by
      rw [hf]; exact get?_length_append pre _ _
    cases n with
    | zero =>
      rw [copyLoop_full q _ _ u hget (by simp [getBackBufferSize, hb])]
      cases q
      simp_all
    | succ n =>
      rw [copyLoop_copy q _ _ u hget (by simp [getBackBufferSize, hb])]
      have hf1 : q.front_buffer.set pre.length (true, u) =
          (pre ++ [(true, u)]) ++ us.map (fun t => (false, t)) := by
        rw [hf]; simp [set_length_append]
      have hb1 : q.back_buffer.set done.length (some (q.popped + pre.length)) =
          (done ++ [some (q.popped + pre.length)]) ++ List.replicate n none := by
        rw [hb, List.replicate_succ]; simp [set_length_append]
      have := ih { q with
          front_buffer := q.front_buffer.set pre.length (true, u)
          back_buffer := q.back_buffer.set done.length (some (q.popped + pre.length)) }
        (pre ++ [(true, u)]) (done ++ [some (q.popped + pre.length)]) n hf1 hb1
      simp only [List.length_append, List.length_singleton] at this
      rw [this]
      simp [Nat.add_min_add_right, List.range'_succ, Nat.add_assoc, Nat.add_comm 1]

theorem deref_at (q : Que T) (fpre : List (Bool × T)) (e : Bool × T) (fpost : List (Bool × T))
    (hf : q.front_buffer = fpre ++ e :: fpost) :
    deref q (q.popped + fpre.length) = some e.2 := by
  unfold deref
  rw [if_neg (by omega), Nat.add_sub_cancel_left, hf, get?_length_append]
  rfl

theorem executeBatchLoop_run (execute : T → Int) (es : List (Bool × T)) :
    ∀ (q : Que T) (fpre fpost : List (Bool × T)) (bpre : List (Option Nat)) (r n : Nat)
      (log : List T),
      q.front_buffer = fpre ++ es ++ fpost →
      q.back_buffer =
        bpre ++ (List.range' (q.popped + fpre.length) es.length).map some ++
          List.replicate r none →
      es.length ≤ n →
      executeBatchLoop execute n bpre.length q log =
        .ok ({ q with
                back_buffer := bpre ++ List.replicate (es.length + r) none
                index_executor := q.index_executor + es.length },
              log ++ es.map Prod.snd) := by
  induction es with
  | nil =>
    intro q fpre fpost bpre r n log hf hb hn
    have hb1 : q.back_buffer = bpre ++ List.replicate r none := by simpa using hb
    have hq : ({ q with
                back_buffer := bpre ++ List.replicate (0 + r) none
                index_executor := q.index_executor + 0 } : Que T) = q := by
      cases q; simp_all
    simp only [List.length_nil, List.map_nil, List.append_nil]
    rw [hq]
    cases n with
    | zero => rfl
    | succ n =>
      cases r with
      | zero =>
        have hg : q.back_buffer.get? bpre.length = none := by rw [hb1]; simp
        simp only [executeBatchLoop, hg]
      | succ r =>
        have hg : q.back_buffer.get? bpre.length = some none := by
          rw [hb1, List.replicate_succ]; exact get?_length_append _ _ _
        simp only [executeBatchLoop, hg]
  | cons e es ih =>
    intro q fpre fpost bpre r n log hf hb hn
    cases n with
    | zero => simp at hn
    | succ n =>
      have hb0 : q.back_buffer =
          bpre ++ some (q.popped + fpre.length) ::
            ((List.range' (q.popped + fpre.length + 1) es.length).map some ++
              List.replicate r none) := by
        rw [hb]; simp [List.range'_succ]
      have hg : q.back_buffer.get? bpre.length = some (some (q.popped + fpre.length)) := by
        rw [hb0]; exact get?_length_append _ _ _
      have hd : deref q (q.popped + fpre.length) = some e.2 :=
        deref_at q fpre e (es ++ fpost) (by rw [hf]; simp)
      have hset : q.back_buffer.set bpre.length none =
          (bpre ++ [none]) ++ (List.range' (q.popped + (fpre ++ [e]).length) es.length).map some ++
            List.replicate r none := by
        rw [hb0, set_length_append]; simp [Nat.add_assoc]
      have := ih { q with
            back_buffer := q.back_buffer.set bpre.length none
            index_executor := q.index_executor + 1 }
          (fpre ++ [e]) fpost (bpre ++ [none]) r n (log ++ [e.2])
          (by rw [hf]; simp) hset (by simpa using hn)
      simp only [List.length_append, List.length_singleton] at this
      simp only [executeBatchLoop, hg, hd]
      rw [this]
      have hr : es.length + 1 + r = (es.length + r) + 1 := by omega
      have hi : q.index_executor + 1 + es.length = q.index_executor + (es.length + 1) := by omega
      simp only [List.length_cons, List.map_cons, hr, hi, List.replicate_succ]
      simp

theorem isBackBufferExecutedFrom_iff (l : List (Option Nat)) :
    isBackBufferExecutedFrom l = true ↔ l = List.replicate l.length none := by
  induction l with
  | nil => simp [isBackBufferExecutedFrom]
  | cons a l ih =>
    cases a with
    | none => simp [isBackBufferExecutedFrom, List.replicate_succ, ih]
    | some p => simp [isBackBufferExecutedFrom, List.replicate_succ]

theorem isBackBufferExecutedFrom_replicate (n : Nat) :
    isBackBufferExecutedFrom (List.replicate n none) = true := by
  induction n with
  | zero => rfl
  | succ n ih => simpa [List.replicate_succ, isBackBufferExecutedFrom] using ih

theorem map_deref_range' (q : Que T) (es : List (Bool × T)) :
    ∀ (fpre fpost : List (Bool × T)), q.front_buffer = fpre ++ es ++ fpost →
      (List.range' (q.popped + fpre.length) es.length).map (deref q) =
        es.map (fun e => some e.2) := by
  induction es with
  | nil => intro fpre fpost _; rfl
  | cons e es ih =>
    intro fpre fpost hf
    have hd : deref q (q.popped + fpre.length) = some e.2 :=
      deref_at q fpre e (es ++ fpost) (by rw [hf]; simp)
    have := ih (fpre ++ [e]) fpost (by rw [hf]; simp)
    simp only [List.length_append, List.length_singleton, ← Nat.add_assoc] at this
    simp only [List.length_cons, List.range'_succ, List.map_cons, hd, this]

theorem copyToBackBuffer_eq (q : Que T) (cs us : List T)
    (hslots : isBackBufferExecuted q = true)
    (hfront : q.front_buffer =
      cs.map (fun t => (true, t)) ++ us.map (fun t => (false, t))) :
    copyToBackBuffer q =
      .ok (min (getBackBufferSize q) us.length,
        { q with
          index_executor := 0
          popped := q.popped + cs.length
          front_buffer :=
            (us.take (min (getBackBufferSize q) us.length)).map (fun t => (true, t)) ++
              (us.drop (min (getBackBufferSize q) us.length)).map (fun t => (false, t))
          back_buffer :=
            (List.range' (q.popped + cs.length) (min (getBackBufferSize q) us.length)).map some ++
              List.replicate (getBackBufferSize q - min (getBackBufferSize q) us.length) none }) := by
  unfold copyToBackBuffer
  rw [hslots]
  simp only [Bool.not_true, Bool.false_eq_true, if_false]
  rw [copyLoop_prune cs
    { q with
      back_buffer := List.replicate q.back_buffer.length none
      index_executor := 0 } (us.map (fun t => (false, t))) 0 hfront]
  have := copyLoop_mark us
    { q with
      back_buffer := List.replicate q.back_buffer.length none
      index_executor := 0
      front_buffer := us.map (fun t => (false, t))
      popped := q.popped + cs.length } [] [] q.back_buffer.length (by simp) (by simp)
  simp only [List.length_nil] at this
  rw [this]
  simp [getBackBufferSize]

theorem slotTasks_after_copy (q : Que T) (es rest : List (Bool × T)) (r : Nat)
    (hf : q.front_buffer = es ++ rest)
    (hb : q.back_buffer = (List.range' q.popped es.length).map some ++ List.replicate r none) :
    slotTasks q = es.map (fun e => some e.2) ++ List.replicate r none := by
  have h := map_deref_range' q es [] rest (by simpa using hf)
  simp only [List.length_nil, Nat.add_zero] at h
  unfold slotTasks
  rw [hb, List.map_append, List.map_map]
  have hcomp : ((fun slot : Option Nat => slot.bind (deref q)) ∘ some) = deref q := by
    funext p; rfl
  rw [hcomp, h]
  simp

theorem executeBatch_after_copy (execute : T → Int) (q : Que T) (es rest : List (Bool × T))
    (r : Nat) (hf : q.front_buffer = es ++ rest)
    (hb : q.back_buffer = (List.range' q.popped es.length).map some ++ List.replicate r none)
    (hi : q.index_executor = 0) (hK : 1 ≤ es.length + r) :
    executeBatch execute q =
      .ok (0, { q with back_buffer := List.replicate (es.length + r) none }, es.map Prod.snd) := by
  have hsize : getBackBufferSize q = es.length + r := by simp [getBackBufferSize, hb]
  have hrun := executeBatchLoop_run execute es q [] rest [] r (es.length + r) []
    (by simpa using hf) (by simpa using hb) (by omega)
  simp only [List.length_nil] at hrun
  unfold executeBatch
  rw [if_neg (by omega), hsize, hi, Nat.sub_zero, hrun]
  simp only [List.nil_append]

theorem swapThenExecute_clean (execute : T → Int) (q : Que T) (cs us : List T)
    (hslots : isBackBufferExecuted q = true)
    (hfront : q.front_buffer =
      cs.map (fun t => (true, t)) ++ us.map (fun t => (false, t)))
    (hK : 1 ≤ getBackBufferSize q) :
    swapThenExecute execute q =
      .ok ({ q with
              index_executor := 0
              popped := q.popped + cs.length
              front_buffer :=
                (us.take (getBackBufferSize q)).map (fun t => (true, t)) ++
                  (us.drop (getBackBufferSize q)).map (fun t => (false, t))
              back_buffer := List.replicate (getBackBufferSize q) none },
            us.take (getBackBufferSize q)) := by
  have hcopy := copyToBackBuffer_eq q cs us hslots hfront
  have hm : (us.take (min (getBackBufferSize q) us.length)) = us.take (getBackBufferSize q) := by
    rw [List.take_eq_take]; simp
  have hd : (us.drop (min (getBackBufferSize q) us.length)) = us.drop (getBackBufferSize q) := by
    rcases Nat.le_total (getBackBufferSize q) us.length with h | h
    · rw [Nat.min_eq_left h]
    · rw [Nat.min_eq_right h, List.drop_of_length_le h, List.drop_of_length_le (Nat.le_refl _)]
  unfold swapThenExecute swapIfExecuted
  rw [hslots, if_pos rfl, hcopy]
  simp only []
  have hexec := executeBatch_after_copy execute
    { q with
      index_executor := 0
      popped := q.popped + cs.length
      front_buffer :=
        (us.take (min (getBackBufferSize q) us.length)).map (fun t => (true, t)) ++
          (us.drop (min (getBackBufferSize q) us.length)).map (fun t => (false, t))
      back_buffer :=
        (List.range' (q.popped + cs.length) (min (getBackBufferSize q) us.length)).map some ++
          List.replicate (getBackBufferSize q - min (getBackBufferSize q) us.length) none }
    ((us.take (min (getBackBufferSize q) us.length)).map (fun t => (true, t)))
    ((us.drop (min (getBackBufferSize q) us.length)).map (fun t => (false, t)))
    (getBackBufferSize q - min (getBackBufferSize q) us.length)
    rfl (by simp) rfl (by simp; omega)
  rw [hexec]
  have hlen : ((us.take (min (getBackBufferSize q) us.length)).map (fun t => (true, t))).length +
      (getBackBufferSize q - min (getBackBufferSize q) us.length) = getBackBufferSize q := by
    simp
  rw [hlen, hm, hd]
  simp [List.map_map, Function.comp]

theorem drainLoop_done (execute : T → Int) (fuel : Nat) (q : Que T) (log : List T)
    (h : areAllTasksExecuted q = true) :
    drainLoop execute fuel q log = some (.ok (q, log)) := by
  cases fuel <;> simp [drainLoop, h]

theorem drainLoop_step (execute : T → Int) (n : Nat) (q q1 : Que T) (log l : List T)
    (h : areAllTasksExecuted q = false) (hs : swapThenExecute execute q = .ok (q1, l)) :
    drainLoop execute (n + 1) q log = drainLoop execute n q1 (log ++ l) := by
  simp [drainLoop, h, hs]

theorem areAllTasksExecuted_iff (q : Que T) :
    areAllTasksExecuted q = true ↔ isBackBufferExecuted q = true ∧ q.front_buffer = [] := by
  simp [areAllTasksExecuted, getFrontBufferSize]

theorem drain_fuel_step (K M n : Nat) (hK : 1 ≤ K) (hM : 1 ≤ M)
    (h : (M + K - 1) / K + 1 ≤ n + 1) : (M - K + K - 1) / K + 1 ≤ n := by
  rcases Nat.lt_or_ge K M with hlt | hge
  · have e : M + K - 1 = (M - K + K - 1) + K := by omega
    rw [e, Nat.add_div_right _ (by omega)] at h
    omega
  · have e : M - K + K - 1 = K - 1 := by omega
    rw [e, Nat.div_eq_of_lt (by omega)]
    have : 1 ≤ (M + K - 1) / K := by
      rw [Nat.le_div_iff_mul_le (by omega)]; omega
    omega

theorem drainLoop_clean (execute : T → Int) :
    ∀ (M : Nat) (us : List T), us.length = M →
      ∀ (q : Que T) (cs : List T) (log : List T) (fuel : Nat),
        isBackBufferExecuted q = true →
        q.front_buffer = cs.map (fun t => (true, t)) ++ us.map (fun t => (false, t)) →
        1 ≤ getBackBufferSize q →
        (M + getBackBufferSize q - 1) / getBackBufferSize q + 1 ≤ fuel →
        ∃ qf : Que T,
          drainLoop execute fuel q log = some (.ok (qf, log ++ us)) ∧
            qf.front_buffer = [] ∧
            qf.back_buffer = List.replicate (getBackBufferSize q) none ∧
            qf.popped = q.popped + cs.length + us.length ∧
            qf.autoexecution_command = q.autoexecution_command ∧
            qf.is_autoexecution_thread_running = q.is_autoexecution_thread_running ∧
            qf.is_quit_requested = q.is_quit_requested := by
  intro M
  induction M using Nat.strong_induction_on with
  | _ M ih =>
    intro us hM q cs log fuel hslots hfront hK hfuel
    have hbb : q.back_buffer = List.replicate (getBackBufferSize q) none :=
      (isBackBufferExecutedFrom_iff q.back_buffer).mp hslots
    by_cases hempty : q.front_buffer = []
    · have hcs : cs = [] := by
        rw [hfront] at hempty; simpa using (List.append_eq_nil.mp hempty).1
      have hus : us = [] := by
        rw [hfront] at hempty; simpa using (List.append_eq_nil.mp hempty).2
      refine ⟨q, ?_, hempty, hbb, by simp [hcs, hus], rfl, rfl, rfl⟩
      rw [drainLoop_done execute fuel q log ((areAllTasksExecuted_iff q).mpr ⟨hslots, hempty⟩)]
      simp [hus]
    · have hnot : areAllTasksExecuted q = false := by
        cases hq : areAllTasksExecuted q with
        | false => rfl
        | true => exact absurd ((areAllTasksExecuted_iff q).mp hq).2 hempty
      cases fuel with
      | zero => exact absurd hfuel (Nat.not_succ_le_zero _)
      | succ n =>
        have hiter := swapThenExecute_clean execute q cs us hslots hfront hK
        rw [drainLoop_step execute n q _ log _ hnot hiter]
        have hlen : (us.drop (getBackBufferSize q)).length = M - getBackBufferSize q := by
          rw [List.length_drop, hM]
        rcases Nat.eq_zero_or_pos M with hz | hpos
        · have hus : us = [] := List.length_eq_zero.mp (by omega)
          subst hus
          refine ⟨{ q with
                index_executor := 0
                popped := q.popped + cs.length
                front_buffer := []
                back_buffer := List.replicate (getBackBufferSize q) none },
              ?_, rfl, rfl, rfl, rfl, rfl, rfl⟩
          simp only [List.take_nil, List.drop_nil, List.map_nil, List.append_nil]
          exact drainLoop_done execute n _ _
            ((areAllTasksExecuted_iff _).mpr ⟨isBackBufferExecutedFrom_replicate _, rfl⟩)
        · obtain ⟨qf, hrun, h1, h2, h3, h4, h5, h6⟩ :=
            ih (M - getBackBufferSize q) (by omega) (us.drop (getBackBufferSize q)) hlen
              { q with
                index_executor := 0
                popped := q.popped + cs.length
                front_buffer :=
                  (us.take (getBackBufferSize q)).map (fun t => (true, t)) ++
                    (us.drop (getBackBufferSize q)).map (fun t => (false, t))
                back_buffer := List.replicate (getBackBufferSize q) none }
              (us.take (getBackBufferSize q)) (log ++ us.take (getBackBufferSize q)) n
              (isBackBufferExecutedFrom_replicate _) rfl
              (by simpa [getBackBufferSize] using hK)
              (by
                have := drain_fuel_step (getBackBufferSize q) M n hK hpos hfuel
                simpa [getBackBufferSize] using this)
          refine ⟨qf, ?_, h1, ?_, ?_, h4, h5, h6⟩
          · rw [hrun]; simp [List.append_assoc]
          · simpa [getBackBufferSize] using h2
          · rw [h3]
            simp only [List.length_take, List.length_drop]
            omega

theorem pushBackLoop_eq (v : List T) :
    ∀ fb : List (Bool × T), pushBackLoop v fb = fb ++ v.map (fun t => (false, t)) := by
  induction v with
  | nil => intro fb; simp [pushBackLoop]
  | cons x rest ih => intro fb; simp [pushBackLoop, ih]

theorem pushBackArg_accepted (q : Que T) (a : PushArg T) (hq : q.is_quit_requested = false) :
    pushBackArg q a =
      (0, { q with front_buffer := q.front_buffer ++ a.tasks.map (fun t => (false, t)) }) := by
  cases a <;>
    simp [pushBackArg, pushBack, pushBackVector, pushBackList, hq, pushBackLoop_eq,
      PushArg.tasks]

theorem pushBackAll_accepted (calls : List (PushArg T)) :
    ∀ q : Que T, q.is_quit_requested = false →
      pushBackAll q calls =
        (List.replicate calls.length 0,
          { q with
            front_buffer := q.front_buffer ++ (pushedTasks calls).map (fun t => (false, t)) }) := by
  induction calls with
  | nil => intro q _; cases q; simp [pushBackAll, pushedTasks]
  | cons a rest ih =>
    intro q hq
    simp only [pushBackAll, pushBackArg_accepted q a hq]
    rw [ih { q with front_buffer := q.front_buffer ++ a.tasks.map (fun t => (false, t)) } hq]
    simp [pushedTasks, List.replicate_succ]

theorem filter_consumed (l : List T) :
    List.filter (fun e : Bool × T => !e.1) (l.map (fun t => (true, t))) = [] := by
  induction l with
  | nil => rfl
  | cons x l ih => simp [ih]

theorem filter_pending (l : List T) :
    List.filter (fun e : Bool × T => !e.1) (l.map (fun t => (false, t))) =
      l.map (fun t => (false, t)) := by
  induction l with
  | nil => rfl
  | cons x l ih => simp [ih]

theorem pendingTasks_eq (q : Que T) (cs us : List T)
    (h : q.front_buffer = cs.map (fun t => (true, t)) ++ us.map (fun t => (false, t))) :
    pendingTasks q = us := by
  unfold pendingTasks
  rw [h, List.filter_append, filter_consumed, filter_pending]
  simp [List.map_map, Function.comp]

theorem pushBackEach_eq (v : List T) :
    ∀ q : Que T, q.is_quit_requested = false →
      pushBackEach q v =
        { q with front_buffer := q.front_buffer ++ v.map (fun t => (false, t)) } := by
  induction v with
  | nil => intro q _; cases q; simp [pushBackEach]
  | cons x rest ih =>
    intro q hq
    have hx : (pushBack q x).2 = { q with front_buffer := q.front_buffer ++ [(false, x)] } := by
      simp [pushBack, hq]
    rw [pushBackEach, hx, ih { q with front_buffer := q.front_buffer ++ [(false, x)] } hq]
    simp

theorem doExecutionAndRun_executed (execute : T → Int) (w w1 : World T)
    (h : doExecutionAndRun execute w = .ok w1) : w1.executed = w.executed := by
  unfold doExecutionAndRun World.doExecution doExecution at h
  by_cases hrun : is_autoexecution_running w.que = true
  · simp [hrun] at h
  · by_cases hall : areAllTasksExecuted w.que = true
    · have hget : (w.threads ++ [Pc.execution]).get? w.threads.length = some Pc.execution :=
        get?_length_append w.threads Pc.execution []
      simp only [hrun, hall, Bool.not_true, Bool.false_eq_true, if_false, List.map_cons,
        List.map_nil, ThreadFunction.start, List.length_append, List.length_singleton,
        Nat.add_sub_cancel, World.stepThread, hget, threadStep, executeTask, if_true] at h
      cases h
      simp
    · simp [hrun, hall] at h

/-! ## The claims -/


/-- C1 (FIFO, exactly-once drain).  For every batch capacity `K ≥ 1`, every
executor and every sequence of `pushBack` calls (of any of the three overloads)
on a freshly constructed queue: every call is accepted (status 0), and the
drain loop of the worker, given at least `⌈M/K⌉ + 1` iterations for the `M`
pushed tasks, stops in a state where `areAllTasksExecuted` holds, having
invoked the executor on exactly the pushed tasks, once each, in push order. -/
theorem fifo_exactly_once_drain (execute : T → Int) (K : Nat) (hK : 1 ≤ K)
    (calls : List (PushArg T)) (fuel : Nat)
    (hfuel : ((pushedTasks calls).length + K - 1) / K + 1 ≤ fuel) :
    (pushBackAll (construct K) calls).1 = List.replicate calls.length 0 ∧
      ∃ qf : Que T,
        drainLoop execute fuel (pushBackAll (construct K) calls).2 [] =
            some (.ok (qf, pushedTasks calls)) ∧
          areAllTasksExecuted qf = true := by
  have hpush := pushBackAll_accepted calls (construct K : Que T) rfl
  rw [hpush]
  refine ⟨rfl, ?_⟩
  have hsize : getBackBufferSize
      ({ (construct K : Que T) with
        front_buffer :=
          (construct K : Que T).front_buffer ++
            (pushedTasks calls).map (fun t => (false, t)) }) = K := by
    simp [getBackBufferSize, construct]
  obtain ⟨qf, hrun, hf, hb, _⟩ :=
    drainLoop_clean execute (pushedTasks calls).length (pushedTasks calls) rfl
      ({ (construct K : Que T) with
        front_buffer :=
          (construct K : Que T).front_buffer ++
            (pushedTasks calls).map (fun t => (false, t)) })
      [] [] fuel (isBackBufferExecutedFrom_replicate K) (by simp [construct])
      (by rw [hsize]; exact hK) (by rw [hsize]; exact hfuel)
  refine ⟨qf, by simpa using hrun, ?_⟩
  rw [areAllTasksExecuted_iff]
  refine ⟨?_, hf⟩
  unfold isBackBufferExecuted
  rw [hb]
  exact isBackBufferExecutedFrom_replicate _

/-- Witness of C1: capacity 2 and the calls `pushBack(1)`,
`pushBack(vector{2,3})`, `pushBack(list{4})`, drained in 3 iterations. -/
theorem fifo_exactly_once_drain_witness :
    (pushBackAll (construct 2)
        [PushArg.single 1, PushArg.vector [2, 3], PushArg.list [4]]).1 = [0, 0, 0] ∧
      ∃ qf : Que Nat,
        drainLoop (fun _ => 0) 3
            (pushBackAll (construct 2)
              [PushArg.single 1, PushArg.vector [2, 3], PushArg.list [4]]).2 [] =
            some (.ok (qf, [1, 2, 3, 4])) ∧
          areAllTasksExecuted qf = true :=
  fifo_exactly_once_drain (fun _ => 0) 2 (by decide)
    [PushArg.single 1, PushArg.vector [2, 3], PushArg.list [4]] 3 (by decide)

/-- C2 (swap postcondition and capacity bound).  In a state where every batch
slot is empty and the front buffer is the consumed entries `cs` followed by the
not-yet-consumed tasks `us` (`M = us.length`, capacity `K`), `copyToBackBuffer`
returns `min K M`; slots `0 .. min K M - 1` point at the nodes of the first
`min K M` tasks of `us`, in order, and the other slots are empty; exactly
those entries become consumed (the old consumed entries are pruned), the rest
stay not-yet-consumed in their order, and the cursor is 0.  When `M > K`,
exactly `K` tasks are in the batch and the `M - K` tasks `us.drop K` remain. -/
theorem copyToBackBuffer_postcondition (q : Que T) (cs us : List T)
    (hslots : isBackBufferExecuted q = true)
    (hfront : q.front_buffer =
      cs.map (fun t => (true, t)) ++ us.map (fun t => (false, t))) :
    ∃ q1 : Que T,
      copyToBackBuffer q = .ok (min (getBackBufferSize q) us.length, q1) ∧
        q1.back_buffer =
          (List.range' q1.popped (min (getBackBufferSize q) us.length)).map some ++
            List.replicate (getBackBufferSize q - min (getBackBufferSize q) us.length) none ∧
        slotTasks q1 =
          (us.take (min (getBackBufferSize q) us.length)).map some ++
            List.replicate (getBackBufferSize q - min (getBackBufferSize q) us.length) none ∧
        q1.front_buffer =
          (us.take (min (getBackBufferSize q) us.length)).map (fun t => (true, t)) ++
            (us.drop (min (getBackBufferSize q) us.length)).map (fun t => (false, t)) ∧
        pendingTasks q1 = us.drop (min (getBackBufferSize q) us.length) ∧
        q1.index_executor = 0 ∧
        getBackBufferSize q1 = getBackBufferSize q ∧
        (getBackBufferSize q < us.length →
          (slotTasks q1 = (us.take (getBackBufferSize q)).map some ∧
            pendingTasks q1 = us.drop (getBackBufferSize q) ∧
            (pendingTasks q1).length = us.length - getBackBufferSize q)) := by
  have hcopy := copyToBackBuffer_eq q cs us hslots hfront
  have hpend : ∀ (m : Nat),
      (List.filter (fun e : Bool × T => !e.1)
        ((us.take m).map (fun t => (true, t)) ++ (us.drop m).map (fun t => (false, t)))).map
          Prod.snd = us.drop m := by
    intro m
    rw [List.filter_append, filter_consumed, filter_pending]
    simp [List.map_map, Function.comp]
  have hslot := slotTasks_after_copy
    { q with
      index_executor := 0
      popped := q.popped + cs.length
      front_buffer :=
        (us.take (min (getBackBufferSize q) us.length)).map (fun t => (true, t)) ++
          (us.drop (min (getBackBufferSize q) us.length)).map (fun t => (false, t))
      back_buffer :=
        (List.range' (q.popped + cs.length) (min (getBackBufferSize q) us.length)).map some ++
          List.replicate (getBackBufferSize q - min (getBackBufferSize q) us.length) none }
    ((us.take (min (getBackBufferSize q) us.length)).map (fun t => (true, t)))
    ((us.drop (min (getBackBufferSize q) us.length)).map (fun t => (false, t)))
    (getBackBufferSize q - min (getBackBufferSize q) us.length) rfl (by simp)
  have hcomp : ((fun e : Bool × T => some e.2) ∘ fun t => (true, t)) = (some : T → Option T) :=
    rfl
  refine ⟨_, hcopy, rfl, ?_, rfl, ?_, rfl, ?_, ?_⟩
  · rw [hslot, List.map_map, hcomp]
  · exact hpend _
  · simp [getBackBufferSize]
  · intro hlt
    have hmin : min (getBackBufferSize q) us.length = getBackBufferSize q :=
      Nat.min_eq_left (Nat.le_of_lt hlt)
    refine ⟨?_, ?_, ?_⟩
    · rw [hslot, hmin, List.map_map, hcomp, Nat.sub_self]; simp
    · have := hpend (min (getBackBufferSize q) us.length)
      rw [hmin] at this
      simpa [pendingTasks, hmin] using this
    · have := hpend (min (getBackBufferSize q) us.length)
      rw [hmin] at this
      simp only [pendingTasks, hmin]
      rw [this, List.length_drop]

/-- Witness of C2: capacity 2, one consumed entry 9 and pending tasks 1, 2, 3. -/
theorem copyToBackBuffer_postcondition_witness :
    ∃ q1 : Que Nat,
      copyToBackBuffer
          ({ (construct 2 : Que Nat) with
            front_buffer := [(true, 9), (false, 1), (false, 2), (false, 3)] }) =
          .ok (2, q1) ∧
        slotTasks q1 = [some 1, some 2] ∧ pendingTasks q1 = [3] ∧ q1.index_executor = 0 := by
  obtain ⟨q1, h1, _, h3, _, h5, h6, _, _⟩ :=
    copyToBackBuffer_postcondition
      ({ (construct 2 : Que Nat) with
        front_buffer := [(true, 9), (false, 1), (false, 2), (false, 3)] })
      [9] [1, 2, 3] (by decide) rfl
  exact ⟨q1, h1, h3, h5, h6⟩

/-- C3, as stated, fails.  In the concrete scenario (capacity 3, tasks `A` to
`E`), after the second `executeBatch` the two consumed entries `D`, `E` are
still in the front buffer: `getFrontBufferSize` is 2, not 0, and
`areAllTasksExecuted` is false. -/
theorem scenario_front_buffer_not_empty :
    ∃ q1 q2 q3 q4 : Que Char,
      copyToBackBuffer scenarioStart = .ok (3, q1) ∧
        executeBatch (fun _ => 0) q1 = .ok (0, q2, ['A', 'B', 'C']) ∧
        copyToBackBuffer q2 = .ok (2, q3) ∧
        executeBatch (fun _ => 0) q3 = .ok (0, q4, ['D', 'E']) ∧
        getFrontBufferSize q4 = 2 ∧ areAllTasksExecuted q4 = false := by
  refine ⟨⟨1, 0, false, false, false, 3, true, 0,
      [(true, 'A'), (true, 'B'), (true, 'C'), (false, 'D'), (false, 'E')],
      [some 0, some 1, some 2], 0⟩,
    ⟨1, 0, false, false, false, 3, true, 0,
      [(true, 'A'), (true, 'B'), (true, 'C'), (false, 'D'), (false, 'E')],
      [none, none, none], 0⟩,
    ⟨1, 0, false, false, false, 3, true, 0, [(true, 'D'), (true, 'E')],
      [some 3, some 4, none], 3⟩,
    ⟨1, 0, false, false, false, 3, true, 0, [(true, 'D'), (true, 'E')],
      [none, none, none], 3⟩, ?_, ?_, ?_, ?_, ?_, ?_⟩
  · simp [scenarioStart, pushBackEach, pushBack, construct, copyToBackBuffer,
      isBackBufferExecuted, isBackBufferExecutedFrom, copyLoop, getBackBufferSize]
  · rfl
  · simp [copyToBackBuffer, isBackBufferExecuted, isBackBufferExecutedFrom, copyLoop,
      getBackBufferSize]
  · rfl
  · decide
  · decide

/-- C3, amended.  In the concrete scenario the first `copyToBackBuffer` fills
the slots with `A`, `B`, `C` and leaves `D`, `E` pending; after `executeBatch`
the second `copyToBackBuffer` gives the slots `D`, `E`, empty; after the
second `executeBatch` every slot is empty and no task is pending, but the
front buffer still holds the consumed entries `D`, `E` (`getFrontBufferSize`
is 2, `areAllTasksExecuted` is false); a third `copyToBackBuffer` fills no slot
and prunes them, after which `getFrontBufferSize` is 0 and
`areAllTasksExecuted` is true. -/
theorem scenario_needs_third_swap :
    ∃ q1 q2 q3 q4 q5 : Que Char,
      copyToBackBuffer scenarioStart = .ok (3, q1) ∧
        slotTasks q1 = [some 'A', some 'B', some 'C'] ∧
        pendingTasks q1 = ['D', 'E'] ∧
        executeBatch (fun _ => 0) q1 = .ok (0, q2, ['A', 'B', 'C']) ∧
        copyToBackBuffer q2 = .ok (2, q3) ∧
        slotTasks q3 = [some 'D', some 'E', none] ∧
        executeBatch (fun _ => 0) q3 = .ok (0, q4, ['D', 'E']) ∧
        isBackBufferExecuted q4 = true ∧
        pendingTasks q4 = [] ∧
        getFrontBufferSize q4 = 2 ∧
        areAllTasksExecuted q4 = false ∧
        copyToBackBuffer q4 = .ok (0, q5) ∧
        getFrontBufferSize q5 = 0 ∧ areAllTasksExecuted q5 = true := by
  refine ⟨⟨1, 0, false, false, false, 3, true, 0,
      [(true, 'A'), (true, 'B'), (true, 'C'), (false, 'D'), (false, 'E')],
      [some 0, some 1, some 2], 0⟩,
    ⟨1, 0, false, false, false, 3, true, 0,
      [(true, 'A'), (true, 'B'), (true, 'C'), (false, 'D'), (false, 'E')],
      [none, none, none], 0⟩,
    ⟨1, 0, false, false, false, 3, true, 0, [(true, 'D'), (true, 'E')],
      [some 3, some 4, none], 3⟩,
    ⟨1, 0, false, false, false, 3, true, 0, [(true, 'D'), (true, 'E')],
      [none, none, none], 3⟩,
    ⟨1, 0, false, false, false, 3, true, 0, [], [none, none, none], 5⟩,
    ?_, ?_, ?_, ?_, ?_, ?_, ?_, ?_, ?_, ?_, ?_, ?_, ?_, ?_⟩
  · simp [scenarioStart, pushBackEach, pushBack, construct, copyToBackBuffer,
      isBackBufferExecuted, isBackBufferExecutedFrom, copyLoop, getBackBufferSize]
  · decide
  · decide
  · rfl
  · simp [copyToBackBuffer, isBackBufferExecuted, isBackBufferExecutedFrom, copyLoop,
      getBackBufferSize]
  · decide
  · rfl
  · decide
  · decide
  · decide
  · decide
  · simp [copyToBackBuffer, isBackBufferExecuted, isBackBufferExecutedFrom, copyLoop,
      getBackBufferSize]
  · decide
  · decide

/-- C4 (quit drains fully) fails on the code when no worker is running.  On a
freshly constructed queue of capacity 3 with one task pushed and
auto-execution never started, `quitThread` returns at once (whatever the
number of polls allowed) with the world as it was: the task is still in the
front buffer (`getFrontBufferSize` is 1), nothing was executed, and the
assertion of the destructor fails. -/
theorem quitThread_without_worker_drains_nothing (execute : Char → Int) (fuel : Nat) :
    quitThread execute fuel (World.pushBack (World.fresh 3) 'A').2 =
        some (.ok (World.pushBack (World.fresh 3) 'A').2) ∧
      (World.pushBack (World.fresh 3) 'A').1 = 0 ∧
      getFrontBufferSize (World.pushBack (World.fresh 3 : World Char) 'A').2.que = 1 ∧
      (World.pushBack (World.fresh 3 : World Char) 'A').2.executed = [] ∧
      (World.pushBack (World.fresh 3 : World Char) 'A').2.que.is_autoexecution_thread_running =
        false ∧
      destruct execute fuel (World.pushBack (World.fresh 3) 'A').2 =
        some (.error (.assertion_failed "getFrontBufferSize()==0")) := by
  have hq : quitThread execute fuel (World.pushBack (World.fresh 3) 'A').2 =
      some (.ok (World.pushBack (World.fresh 3) 'A').2) := by
    cases fuel <;> rfl
  refine ⟨hq, rfl, rfl, rfl, rfl, ?_⟩
  unfold destruct
  rw [hq]
  rfl

/-- C5 (at most one worker) fails on the code.  On a fresh queue the calls
`doAutoExecution(true)`, `doAutoExecution(false)`, `doAutoExecution(true)` all
return 0, and the third creates a second worker while the first one (which has
set its running flag and is inside its loop) has not returned: two
background threads are alive. -/
theorem doAutoExecution_second_worker :
    ∃ w1 w2 w3 w4 : World Char,
      World.doAutoExecution (World.fresh 3) true = (0, w1) ∧
        World.stepThread (fun _ => 0) w1 0 = .ok w2 ∧
        w2.que.is_autoexecution_thread_running = true ∧
        w2.threads = [Pc.loop_swap] ∧
        World.doAutoExecution w2 false = (0, w3) ∧
        w3.threads = [Pc.loop_swap] ∧
        World.doAutoExecution w3 true = (0, w4) ∧
        w4.threads = [Pc.loop_swap, Pc.entry] ∧ w4.threads.length = 2 :=
  ⟨_, _, _, _, rfl, rfl, rfl, rfl, rfl, rfl, rfl, rfl, rfl⟩

/-- C6 (push after quit is rejected).  While `is_quit_requested` is set, each
of the three `pushBack` overloads returns -1 and leaves the whole state as it
was; while it is not set, each returns 0. -/
theorem pushBack_quit_requested (q : Que T) (v : T) (vec lst : List T) :
    (q.is_quit_requested = true →
        pushBack q v = (-1, q) ∧ pushBackVector q vec = (-1, q) ∧ pushBackList q lst = (-1, q)) ∧
      (q.is_quit_requested = false →
        (pushBack q v).1 = 0 ∧ (pushBackVector q vec).1 = 0 ∧ (pushBackList q lst).1 = 0) := by
  constructor
  · intro h; simp [pushBack, pushBackVector, pushBackList, h]
  · intro h; simp [pushBack, pushBackVector, pushBackList, h]

/-- Witness of C6: a queue with a pending task 5 and the quit flag set
rejects all three pushes; the freshly constructed queue accepts them. -/
theorem pushBack_quit_requested_witness :
    (pushBack ({ (construct 2 : Que Nat) with
          is_quit_requested := true, front_buffer := [(false, 5)] }) 7 =
        (-1, { (construct 2 : Que Nat) with
          is_quit_requested := true, front_buffer := [(false, 5)] }) ∧
      pushBackVector ({ (construct 2 : Que Nat) with
          is_quit_requested := true, front_buffer := [(false, 5)] }) [7, 8] =
        (-1, { (construct 2 : Que Nat) with
          is_quit_requested := true, front_buffer := [(false, 5)] }) ∧
      pushBackList ({ (construct 2 : Que Nat) with
          is_quit_requested := true, front_buffer := [(false, 5)] }) [9] =
        (-1, { (construct 2 : Que Nat) with
          is_quit_requested := true, front_buffer := [(false, 5)] })) ∧
      ((pushBack (construct 2 : Que Nat) 7).1 = 0 ∧
        (pushBackVector (construct 2 : Que Nat) [7, 8]).1 = 0 ∧
        (pushBackList (construct 2 : Que Nat) [9]).1 = 0) :=
  ⟨(pushBack_quit_requested
      ({ (construct 2 : Que Nat) with
        is_quit_requested := true, front_buffer := [(false, 5)] }) 7 [7, 8] [9]).1 rfl,
    (pushBack_quit_requested (construct 2 : Que Nat) 7 [7, 8] [9]).2 rfl⟩

/-- C7 (status codes of `doAutoExecution`).  `doAutoExecution(true)` returns 2
exactly when `is_quit_requested` is set; otherwise it returns 1 exactly when
`autoexecution_command` is already true; otherwise it returns 0, sets the
command flag and creates one worker thread.  With status 1 or 2 no thread is
created and the state is unchanged.  `doAutoExecution(false)` always returns
0, clears the command flag, creates no thread and changes nothing else. -/
theorem doAutoExecution_status (q : Que T) :
    ((doAutoExecution q true).1 = 2 ↔ q.is_quit_requested = true) ∧
      (q.is_quit_requested = false →
        ((doAutoExecution q true).1 = 1 ↔ q.autoexecution_command = true)) ∧
      (q.is_quit_requested = false → q.autoexecution_command = false →
        doAutoExecution q true =
          (0, { q with autoexecution_command := true },
            [ThreadFunction.thread_function_autoexecution])) ∧
      (q.is_quit_requested = true → doAutoExecution q true = (2, q, [])) ∧
      (q.is_quit_requested = false → q.autoexecution_command = true →
        doAutoExecution q true = (1, q, [])) ∧
      doAutoExecution q false = (0, { q with autoexecution_command := false }, []) := by
  cases hquit : q.is_quit_requested <;> cases hcmd : q.autoexecution_command <;>
    simp [doAutoExecution, hquit, hcmd]

/-- Witness of C7: the three outcomes of `doAutoExecution(true)`, on a fresh
queue (status 0, one thread), on a queue whose command flag is set (status 1)
and on a queue whose quit flag is set (status 2). -/
theorem doAutoExecution_status_witness :
    doAutoExecution (construct 2 : Que Nat) true =
        (0, { (construct 2 : Que Nat) with autoexecution_command := true },
          [ThreadFunction.thread_function_autoexecution]) ∧
      doAutoExecution ({ (construct 2 : Que Nat) with autoexecution_command := true }) true =
        (1, { (construct 2 : Que Nat) with autoexecution_command := true }, []) ∧
      doAutoExecution ({ (construct 2 : Que Nat) with is_quit_requested := true }) true =
        (2, { (construct 2 : Que Nat) with is_quit_requested := true }, []) :=
  ⟨(doAutoExecution_status (construct 2 : Que Nat)).2.2.1 rfl rfl,
    (doAutoExecution_status
      ({ (construct 2 : Que Nat) with autoexecution_command := true })).2.2.2.2.1 rfl rfl,
    (doAutoExecution_status
      ({ (construct 2 : Que Nat) with is_quit_requested := true })).2.2.2.1 rfl⟩

/-- C8 (a collection push keeps the order and equals repeated single pushes).
While `is_quit_requested` is not set, `pushBack` of a vector or of a list `v`
returns 0 and only changes the front buffer, to the old front buffer followed
by `(false, x)` for each `x` of `v` in order; this is the state reached by
calling the single-task `pushBack` on the elements of `v` one after another. -/
theorem pushBack_collection (q : Que T) (v : List T) (hq : q.is_quit_requested = false) :
    pushBackVector q v =
        (0, { q with front_buffer := q.front_buffer ++ v.map (fun t => (false, t)) }) ∧
      pushBackList q v =
        (0, { q with front_buffer := q.front_buffer ++ v.map (fun t => (false, t)) }) ∧
      (pushBackVector q v).2 = pushBackEach q v ∧
      (pushBackList q v).2 = pushBackEach q v := by
  have h1 : pushBackVector q v =
      (0, { q with front_buffer := q.front_buffer ++ v.map (fun t => (false, t)) }) := by
    simp [pushBackVector, hq, pushBackLoop_eq]
  have h2 : pushBackList q v =
      (0, { q with front_buffer := q.front_buffer ++ v.map (fun t => (false, t)) }) := by
    simp [pushBackList, hq, pushBackLoop_eq]
  refine ⟨h1, h2, ?_, ?_⟩
  · rw [h1, pushBackEach_eq v q hq]
  · rw [h2, pushBackEach_eq v q hq]

/-- Witness of C8: pushing the vector (or list) 2, 3 onto a queue of capacity
2 whose front buffer holds the consumed task 1. -/
theorem pushBack_collection_witness :
    pushBackVector ({ (construct 2 : Que Nat) with front_buffer := [(true, 1)] }) [2, 3] =
        (0, { (construct 2 : Que Nat) with
          front_buffer := [(true, 1)] ++ [2, 3].map (fun t => (false, t)) }) ∧
      pushBackList ({ (construct 2 : Que Nat) with front_buffer := [(true, 1)] }) [2, 3] =
        (0, { (construct 2 : Que Nat) with
          front_buffer := [(true, 1)] ++ [2, 3].map (fun t => (false, t)) }) ∧
      (pushBackVector ({ (construct 2 : Que Nat) with front_buffer := [(true, 1)] }) [2, 3]).2 =
        pushBackEach ({ (construct 2 : Que Nat) with front_buffer := [(true, 1)] }) [2, 3] ∧
      (pushBackList ({ (construct 2 : Que Nat) with front_buffer := [(true, 1)] }) [2, 3]).2 =
        pushBackEach ({ (construct 2 : Que Nat) with front_buffer := [(true, 1)] }) [2, 3] :=
  pushBack_collection ({ (construct 2 : Que Nat) with front_buffer := [(true, 1)] }) [2, 3] rfl

/-- C9 (effect of one-shot execution) fails on the code.  On a queue of
capacity 3 with the single pending task `A`, no worker running and every slot
empty, `doExecution` throws instead of creating the transient thread, so the
executor is not invoked on `A`; and the body of that thread, `executeTask`,
performs no swap: run on this state it dereferences the null pointer of
slot 0.  (Whenever `doExecution` is accepted, the front buffer is empty and the
transient thread executes nothing.) -/
theorem doExecution_executes_nothing (execute : Char → Int) :
    (World.pushBack (World.fresh 3 : World Char) 'A').2.que.is_autoexecution_thread_running =
        false ∧
      isBackBufferExecuted (World.pushBack (World.fresh 3 : World Char) 'A').2.que = true ∧
      pendingTasks (World.pushBack (World.fresh 3 : World Char) 'A').2.que = ['A'] ∧
      doExecutionAndRun execute (World.pushBack (World.fresh 3) 'A').2 =
        .error (.thrown "Execution is running, wait until finish or stop the execution") ∧
      executeTask execute (World.pushBack (World.fresh 3 : World Char) 'A').2.que =
        .error (.undefined_behaviour "null task pointer") :=
  ⟨rfl, rfl, rfl, rfl, rfl⟩

/-- C10 (precondition of one-shot execution) fails on the code.  With no
worker running and every batch slot empty, `doExecution` is still rejected
when the front buffer is not empty: on a queue of capacity 3 holding the
single pending task `A` it throws and creates no thread. -/
theorem doExecution_rejects_pending_task :
    is_autoexecution_running (pushBack (construct 3 : Que Char) 'A').2 = false ∧
      isBackBufferExecuted (pushBack (construct 3 : Que Char) 'A').2 = true ∧
      doExecution (pushBack (construct 3 : Que Char) 'A').2 =
        .error (.thrown "Execution is running, wait until finish or stop the execution") :=
  ⟨rfl, rfl, rfl⟩


theorem bufferInv_fresh (K : Nat) : BufferInv K (Run.fresh K : Run T) :=
  ⟨[], [], 0, K, Nat.le_refl _, by simp, rfl, by simp [Run.fresh, construct], by simp,
    Or.inl rfl, rfl, rfl⟩

theorem bufferInv_pushBack (execute : T → Int) (K : Nat) (r r1 : Run T) (arg : PushArg T)
    (hinv : BufferInv K r) (h : applyOp execute r (.pushBack arg) = some r1) :
    BufferInv K r1 := by
  obtain ⟨cs, us, a, c, ha, hK, hf, hb, hcur, hidx, hquit, hlog⟩ := hinv
  simp only [applyOp, pushBackArg_accepted r.que arg hquit, beq_self_eq_true, if_true,
    Option.some.injEq] at h
  subst h
  refine ⟨cs, us ++ arg.tasks, a, c, ha, hK, ?_, hb, hcur, hidx, hquit, ?_⟩
  · simp [hf]
  · simp only [← hlog, List.append_assoc]

theorem isBackBufferExecutedFrom_append_some (a : Nat) (p : Nat) (rest : List (Option Nat)) :
    isBackBufferExecutedFrom (List.replicate a none ++ some p :: rest) = false := by
  induction a with
  | zero => rfl
  | succ a ih => simpa [List.replicate_succ, isBackBufferExecutedFrom] using ih

theorem bufferInv_slots_empty (r : Run T) (cs : List T) (a c : Nat)
    (ha : a ≤ cs.length)
    (hb : r.que.back_buffer =
      List.replicate a none ++ (List.range' (r.que.popped + a) (cs.length - a)).map some ++
        List.replicate c none)
    (hex : isBackBufferExecuted r.que = true) : a = cs.length := by
  by_contra hne
  have hlt : a < cs.length := by omega
  obtain ⟨n, hn⟩ : ∃ n, cs.length - a = n + 1 := ⟨cs.length - a - 1, by omega⟩
  unfold isBackBufferExecuted at hex
  rw [hb, hn, List.range'_succ, List.map_cons, List.append_assoc, List.cons_append,
    isBackBufferExecutedFrom_append_some] at hex
  cases hex

theorem bufferInv_copyToBackBuffer (execute : T → Int) (K : Nat) (r r1 : Run T)
    (hinv : BufferInv K r) (h : applyOp execute r .copyToBackBuffer = some r1) :
    BufferInv K r1 := by
  obtain ⟨cs, us, a, c, ha, hK, hf, hb, hcur, hidx, hquit, hlog⟩ := hinv
  have hsize : getBackBufferSize r.que = K := by
    simp [getBackBufferSize, hb]; omega
  by_cases hex : isBackBufferExecuted r.que = true
  · have hacs := bufferInv_slots_empty r cs a c ha hb hex
    have hcopy := copyToBackBuffer_eq r.que cs us hex hf
    simp only [applyOp, hcopy, Option.some.injEq] at h
    subst h
    rw [hsize]
    have hm : (us.take (min K us.length)).length = min K us.length := by
      simp [List.length_take]
    refine ⟨us.take (min K us.length), us.drop (min K us.length), 0, K - min K us.length,
      Nat.zero_le _, ?_, rfl, ?_, ?_, Or.inl rfl, hquit, ?_⟩
    · rw [hm]; omega
    · simp only [hm, List.replicate_zero, List.nil_append, Nat.sub_zero, Nat.add_zero]
    · intro _; rfl
    · simp only [List.drop_zero, List.append_assoc, List.take_append_drop]
      rw [← hlog, hacs, List.drop_length, List.append_nil]
  · have herr : copyToBackBuffer r.que = .error (.thrown "BackBuffer is not executed yet") := by
      simp [copyToBackBuffer, hex]
    simp [applyOp, herr] at h


theorem front_split_at (cs us : List T) (a : Nat) :
    cs.map (fun t => (true, t)) ++ us.map (fun t => (false, t)) =
      (cs.take a).map (fun t => (true, t)) ++ (cs.drop a).map (fun t => (true, t)) ++
        us.map (fun t => (false, t)) := by
  rw [← List.map_append, List.take_append_drop]

theorem bufferInv_executeBatch (execute : T → Int) (K : Nat) (r r1 : Run T)
    (hinv : BufferInv K r) (h : applyOp execute r .executeBatch = some r1) :
    BufferInv K r1 := by
  obtain ⟨cs, us, a, c, ha, hK, hf, hb, hcur, hidx, hquit, hlog⟩ := hinv
  have hsize : getBackBufferSize r.que = K := by
    simp [getBackBufferSize, hb]; omega
  by_cases hthrow : r.que.index_executor ≥ getBackBufferSize r.que
  · simp [applyOp, executeBatch, hthrow] at h
  · rw [hsize] at hthrow
    by_cases hlt : a < cs.length
    · have hi : r.que.index_executor = a := hcur hlt
      have hrun := executeBatchLoop_run execute ((cs.drop a).map (fun t => (true, t))) r.que
        ((cs.take a).map (fun t => (true, t))) (us.map (fun t => (false, t)))
        (List.replicate a none) c (K - a) []
        (by rw [hf]; exact front_split_at cs us a)
        (by
          rw [hb]
          simp only [List.length_map, List.length_take, List.length_drop,
            Nat.min_eq_left ha])
        (by simp only [List.length_map, List.length_drop]; omega)
      simp only [List.length_replicate] at hrun
      have hexec : executeBatch execute r.que = .ok (0,
          { r.que with
            back_buffer := List.replicate a none ++
              List.replicate (((cs.drop a).map (fun t => (true, t))).length + c) none
            index_executor := 0 },
          ((cs.drop a).map (fun t => (true, t))).map Prod.snd) := by
        unfold executeBatch
        rw [if_neg (by rw [hsize]; exact hthrow), hsize, hi, hrun]
        rfl
      simp only [applyOp, hexec, Option.some.injEq] at h
      subst h
      refine ⟨cs, us, cs.length, c, Nat.le_refl _, hK, hf, ?_, ?_, Or.inl rfl, hquit, ?_⟩
      · simp only [List.length_map, List.length_drop, Nat.sub_self, List.range'_zero,
          List.map_nil, List.append_nil, List.append_replicate_replicate]
        congr 1
        omega
      · intro habs; exact absurd habs (Nat.lt_irrefl _)
      · simp only [List.nil_append, List.map_map, List.drop_length, List.append_nil]
        rw [← hlog]
        simp [Function.comp]
    · have hacs : a = cs.length := by omega
      have hbb : r.que.back_buffer =
          List.replicate r.que.index_executor none ++
            (List.range' (r.que.popped + ([] : List (Bool × T)).length)
              ([] : List (Bool × T)).length).map some ++
            List.replicate (K - r.que.index_executor) none := by
        rw [hb, hacs]
        simp only [Nat.sub_self, List.range'_zero, List.map_nil, List.append_nil,
          List.length_nil, List.append_replicate_replicate]
        congr 1
        omega
      have hrun := executeBatchLoop_run execute [] r.que [] r.que.front_buffer
        (List.replicate r.que.index_executor none) (K - r.que.index_executor)
        (K - r.que.index_executor) [] (by simp) hbb (by simp)
      simp only [List.length_replicate] at hrun
      have hexec : executeBatch execute r.que = .ok (0,
          { r.que with
            back_buffer := List.replicate r.que.index_executor none ++
              List.replicate (([] : List (Bool × T)).length + (K - r.que.index_executor)) none
            index_executor := 0 }, []) := by
        unfold executeBatch
        rw [if_neg (by rw [hsize]; exact hthrow), hsize, hrun]
        rfl
      simp only [applyOp, hexec, Option.some.injEq] at h
      subst h
      refine ⟨cs, us, a, c, ha, hK, hf, ?_, ?_, Or.inl rfl, hquit, ?_⟩
      · simp only [hacs, Nat.sub_self, List.range'_zero, List.map_nil, List.append_nil,
          List.length_nil, Nat.zero_add, List.append_replicate_replicate]
        congr 1
        omega
      · intro habs; omega
      · simpa using hlog


theorem split_at_index (cs : List T) (a : Nat) (h : a < cs.length) :
    ∃ (pre : List T) (t : T) (post : List T), cs = pre ++ t :: post ∧ pre.length = a :=
  ⟨cs.take a, cs[a], cs.drop (a + 1),
    by rw [← List.drop_eq_getElem_cons h, List.take_append_drop],
    by rw [List.length_take]; omega⟩

theorem executeTask_at_slot (execute : T → Int) (q : Que T) (bpre brest : List (Option Nat))
    (p : Nat) (t : T) (hb : q.back_buffer = bpre ++ some p :: brest)
    (hi : q.index_executor = bpre.length) (hd : deref q p = some t)
    (hall : areAllTasksExecuted q = false) :
    executeTask execute q =
      .ok (0,
        { q with
          back_buffer := bpre ++ none :: brest
          index_executor := if brest = [] then 0 else bpre.length + 1 }, [t]) := by
  have hg : q.back_buffer.get? bpre.length = some (some p) := by
    rw [hb]; exact get?_length_append _ _ _
  have hset : q.back_buffer.set bpre.length none = bpre ++ none :: brest := by
    rw [hb]; exact set_length_append _ _ _ _
  unfold executeTask
  simp only [hall, Bool.false_eq_true, if_false, hi, hg, hd, hset, getBackBufferSize,
    List.length_append, List.length_cons]
  cases brest with
  | nil => simp
  | cons x xs => simp

theorem bufferInv_executeTask (execute : T → Int) (K : Nat) (r r1 : Run T)
    (hinv : BufferInv K r) (h : applyOp execute r .executeTask = some r1) :
    BufferInv K r1 := by
  obtain ⟨cs, us, a, c, ha, hK, hf, hb, hcur, hidx, hquit, hlog⟩ := hinv
  by_cases hall : areAllTasksExecuted r.que = true
  · have hexec : executeTask execute r.que = .ok (-1, r.que, []) := by
      simp [executeTask, hall]
    simp only [applyOp, hexec, Option.some.injEq] at h
    subst h
    exact ⟨cs, us, a, c, ha, hK, hf, hb, hcur, hidx, hquit, by simpa using hlog⟩
  · have hall' : areAllTasksExecuted r.que = false := by
      cases hq : areAllTasksExecuted r.que with
      | false => rfl
      | true => exact absurd hq hall
    by_cases hlt : a < cs.length
    · obtain ⟨pre, t, post, rfl, rfl⟩ := split_at_index cs a hlt
      have hi : r.que.index_executor = pre.length := hcur hlt
      have hb1 : r.que.back_buffer =
          List.replicate pre.length none ++ some (r.que.popped + pre.length) ::
            ((List.range' (r.que.popped + pre.length + 1) post.length).map some ++
              List.replicate c none) := by
        rw [hb]
        have : (pre ++ t :: post).length - pre.length = post.length + 1 := by
          simp only [List.length_append, List.length_cons]; omega
        rw [this, List.range'_succ]
        simp
      have hd : deref r.que (r.que.popped + pre.length) = some t := by
        have := deref_at r.que (pre.map (fun t => (true, t))) (true, t)
          (post.map (fun t => (true, t)) ++ us.map (fun t => (false, t)))
          (by rw [hf]; simp)
        simpa using this
      have hexec := executeTask_at_slot execute r.que (List.replicate pre.length none) _ _ t
        hb1 (by rw [hi, List.length_replicate]) hd hall'
      simp only [applyOp, hexec, Option.some.injEq] at h
      subst h
      refine ⟨pre ++ t :: post, us, pre.length + 1, c, ?_, hK, hf, ?_, ?_, ?_, hquit, ?_⟩
      · simp only [List.length_append, List.length_cons]; omega
      · have : (pre ++ t :: post).length - (pre.length + 1) = post.length := by
          simp only [List.length_append, List.length_cons]; omega
        simp only [this, List.replicate_succ', List.append_assoc, List.singleton_append,
          Nat.add_assoc, List.cons_append, List.nil_append]
      · intro hlt2
        have hpost : post ≠ [] := by
          intro hnil
          rw [hnil] at hlt2
          simp only [List.length_append, List.length_cons, List.length_nil] at hlt2
          omega
        have hne : ¬ ((List.range' (r.que.popped + pre.length + 1) post.length).map some ++
            List.replicate c none = []) := by
          cases post with
          | nil => exact absurd rfl hpost
          | cons x xs => simp [List.range'_succ]
        simp only [if_neg hne, List.length_replicate]
      · simp only [List.length_replicate]
        split
        · exact Or.inl rfl
        · rename_i hne
          right
          have : post.length + c ≠ 0 := by
            intro h0
            apply hne
            have hp : post.length = 0 := by omega
            have hc : c = 0 := by omega
            rw [hp, hc]; rfl
          simp only [List.length_append, List.length_cons] at hK
          omega
      · rw [← hlog]
        simp [List.append_assoc]
    · have hacs : a = cs.length := by omega
      have hbb : r.que.back_buffer = List.replicate K none := by
        rw [hb, hacs]
        simp only [Nat.sub_self, List.range'_zero, List.map_nil, List.append_nil,
          List.append_replicate_replicate, hK]
      have hexec : ∃ e, executeTask execute r.que = .error e := by
        unfold executeTask
        simp only [hall', Bool.false_eq_true, if_false, hbb]
        by_cases hin : r.que.index_executor < K
        · refine ⟨.undefined_behaviour "null task pointer", ?_⟩
          rw [List.get?_eq_getElem?, List.getElem?_replicate_of_lt hin]
        · refine ⟨.undefined_behaviour "back_buffer index out of range", ?_⟩
          rw [List.get?_eq_getElem?, List.getElem?_eq_none (by simpa using Nat.le_of_not_lt hin)]
      obtain ⟨e, he⟩ := hexec
      simp [applyOp, he] at h


theorem bufferInv_applyOp (execute : T → Int) (K : Nat) (r r1 : Run T) (op : Op T)
    (hinv : BufferInv K r) (h : applyOp execute r op = some r1) : BufferInv K r1 := by
  cases op with
  | pushBack a => exact bufferInv_pushBack execute K r r1 a hinv h
  | copyToBackBuffer => exact bufferInv_copyToBackBuffer execute K r r1 hinv h
  | executeBatch => exact bufferInv_executeBatch execute K r r1 hinv h
  | executeTask => exact bufferInv_executeTask execute K r r1 hinv h

theorem bufferInv_runOps (execute : T → Int) (K : Nat) (ops : List (Op T)) :
    ∀ (r r1 : Run T), BufferInv K r → runOps execute r ops = some r1 → BufferInv K r1 := by
  induction ops with
  | nil =>
    intro r r1 hinv h
    simp only [runOps, Option.some.injEq] at h
    exact h ▸ hinv
  | cons op rest ih =>
    intro r r1 hinv h
    simp only [runOps] at h
    cases hop : applyOp execute r op with
    | none => rw [hop] at h; cases h
    | some r2 =>
      rw [hop] at h
      exact ih r2 r1 (bufferInv_applyOp execute K r r2 op hinv hop) h

theorem bufferInv_reachable (execute : T → Int) (K : Nat) (ops : List (Op T)) (r : Run T)
    (h : runOps execute (Run.fresh K) ops = some r) : BufferInv K r :=
  bufferInv_runOps execute K ops _ r (bufferInv_fresh K) h

theorem bufferInv_size (K : Nat) (r : Run T) (hinv : BufferInv K r) :
    getBackBufferSize r.que = K := by
  obtain ⟨cs, us, a, c, ha, hK, _, hb, _⟩ := hinv
  simp [getBackBufferSize, hb]; omega

theorem isBackBufferExecutedFrom_false_iff (l : List (Option Nat)) :
    isBackBufferExecutedFrom l = false ↔ ∃ i p, l.get? i = some (some p) := by
  induction l with
  | nil => simp [isBackBufferExecutedFrom]
  | cons x l ih =>
    cases x with
    | none =>
      simp only [isBackBufferExecutedFrom, ih]
      constructor
      · rintro ⟨i, p, h⟩; exact ⟨i + 1, p, by simpa using h⟩
      · rintro ⟨i, p, h⟩
        cases i with
        | zero => simp at h
        | succ i => exact ⟨i, p, by simpa using h⟩
    | some p =>
      simp only [isBackBufferExecutedFrom, true_iff]
      exact ⟨0, p, rfl⟩

/-- C11 (a swap that violates its contract changes nothing).  When some batch
slot is non-empty, `copyToBackBuffer` throws `BackBuffer is not executed yet`
and leaves the whole state (front buffer with its consumed flags, batch slots,
cursor) as it was; when every slot is empty it does not fail. -/
theorem copyToBackBuffer_violation_atomic (q : Que T) :
    ((∃ i p, q.back_buffer.get? i = some (some p)) →
        copyToBackBuffer q = .error (.thrown "BackBuffer is not executed yet") ∧
          copyToBackBufferState q = q) ∧
      ((∀ i p, q.back_buffer.get? i ≠ some (some p)) →
        ∃ n q1, copyToBackBuffer q = .ok (n, q1) ∧ copyToBackBufferState q = q1) := by
  constructor
  · intro h
    have hex : isBackBufferExecuted q = false :=
      (isBackBufferExecutedFrom_false_iff q.back_buffer).mpr h
    simp [copyToBackBuffer, copyToBackBufferState, hex]
  · intro h
    have hex : isBackBufferExecuted q = true := by
      cases hq : isBackBufferExecuted q with
      | true => rfl
      | false =>
        obtain ⟨i, p, hip⟩ := (isBackBufferExecutedFrom_false_iff q.back_buffer).mp hq
        exact absurd hip (h i p)
    refine ⟨(copyLoop
      { q with
        back_buffer := List.replicate q.back_buffer.length none
        index_executor := 0 } 0 0).1,
      (copyLoop
      { q with
        back_buffer := List.replicate q.back_buffer.length none
        index_executor := 0 } 0 0).2, ?_, ?_⟩
    · simp [copyToBackBuffer, hex]
    · simp [copyToBackBufferState, hex]

/-- Witness of C11: with task 7 still in slot 1 the swap throws and changes
nothing; on the same queue with the slots empty it returns. -/
theorem copyToBackBuffer_violation_atomic_witness :
    (copyToBackBuffer ({ (construct 2 : Que Nat) with
          front_buffer := [(true, 6), (true, 7), (false, 8)]
          back_buffer := [none, some 1] }) =
        .error (.thrown "BackBuffer is not executed yet") ∧
      copyToBackBufferState ({ (construct 2 : Que Nat) with
          front_buffer := [(true, 6), (true, 7), (false, 8)]
          back_buffer := [none, some 1] }) =
        { (construct 2 : Que Nat) with
          front_buffer := [(true, 6), (true, 7), (false, 8)]
          back_buffer := [none, some 1] }) ∧
      ∃ n q1, copyToBackBuffer (construct 2 : Que Nat) = .ok (n, q1) ∧
        copyToBackBufferState (construct 2 : Que Nat) = q1 :=
  ⟨(copyToBackBuffer_violation_atomic
      ({ (construct 2 : Que Nat) with
        front_buffer := [(true, 6), (true, 7), (false, 8)]
        back_buffer := [none, some 1] })).1 ⟨1, 1, rfl⟩,
    (copyToBackBuffer_violation_atomic (construct 2 : Que Nat)).2 (by
      intro i p h
      match i, h with
      | 0, h => cases h
      | 1, h => cases h
      | _ + 2, h => cases h)⟩


theorem filterMap_id_replicate_none (n : Nat) :
    List.filterMap id (List.replicate n (none : Option T)) = [] := by
  rw [List.filterMap_eq_nil_iff]
  intro x hx
  rw [(List.mem_replicate.mp hx).2]
  rfl

theorem slotRun_of_form (q : Que T) (cs us : List T) (a c : Nat) (ha : a ≤ cs.length)
    (hf : q.front_buffer = cs.map (fun t => (true, t)) ++ us.map (fun t => (false, t)))
    (hb : q.back_buffer =
      List.replicate a none ++ (List.range' (q.popped + a) (cs.length - a)).map some ++
        List.replicate c none) :
    slotRun q = cs.drop a := by
  have h := map_deref_range' q ((cs.drop a).map (fun t => (true, t)))
    ((cs.take a).map (fun t => (true, t))) (us.map (fun t => (false, t)))
    (by rw [hf]; exact front_split_at cs us a)
  simp only [List.length_map, List.length_take, List.length_drop, Nat.min_eq_left ha,
    List.map_map] at h
  have hcomp : ((fun slot : Option Nat => slot.bind (deref q)) ∘ some) = deref q := by
    funext p; rfl
  unfold slotRun slotTasks
  rw [hb, List.map_append, List.map_append, List.map_map, hcomp, h]
  simp only [List.map_replicate, Option.none_bind, List.filterMap_append,
    filterMap_id_replicate_none, List.nil_append, List.append_nil, List.filterMap_map]
  have hsome : (id ∘ ((fun e : Bool × T => some e.2) ∘ fun t => (true, t))) =
      (some : T → Option T) := rfl
  rw [hsome]
  exact List.filterMap_some _

/-- C12, as stated, fails.  On a fresh queue of capacity 3 with the task `A`
pushed (a reachable state with every slot empty), `copyToBackBuffer` returns 1
and the head of the front buffer is the entry of `A`, now marked consumed. -/
theorem copyToBackBuffer_head_consumed :
    ∃ (r : Run Char) (q1 : Que Char),
      runOps (fun _ => 0) (Run.fresh 3) [Op.pushBack (PushArg.single 'A')] = some r ∧
        isBackBufferExecuted r.que = true ∧
        copyToBackBuffer r.que = .ok (1, q1) ∧
        q1.front_buffer.head? = some (true, 'A') := by
  refine ⟨⟨⟨1, 0, false, false, false, 3, true, 0, [(false, 'A')], [none, none, none], 0⟩,
      [], ['A']⟩,
    ⟨1, 0, false, false, false, 3, true, 0, [(true, 'A')], [some 0, none, none], 0⟩,
    rfl, rfl, ?_, rfl⟩
  simp [copyToBackBuffer, isBackBufferExecuted, isBackBufferExecutedFrom, copyLoop,
    getBackBufferSize]

/-- C12, amended.  In every state reachable from construction by `pushBack`,
`copyToBackBuffer`, `executeBatch` and `executeTask` in which every slot is
empty, `copyToBackBuffer` returns the count `n = min K M` and leaves a front
buffer that holds no entry consumed before the call: it is the `n` entries the
call has just moved into the batch slots, marked consumed, followed by the
remaining pending entries, not consumed. -/
theorem copyToBackBuffer_prunes_old_consumed (execute : T → Int) (K : Nat)
    (ops : List (Op T)) (r : Run T)
    (hreach : runOps execute (Run.fresh K) ops = some r)
    (hslots : isBackBufferExecuted r.que = true) :
    ∃ q1 : Que T,
      copyToBackBuffer r.que = .ok (min K (pendingTasks r.que).length, q1) ∧
        q1.front_buffer =
          ((pendingTasks r.que).take (min K (pendingTasks r.que).length)).map
              (fun t => (true, t)) ++
            ((pendingTasks r.que).drop (min K (pendingTasks r.que).length)).map
              (fun t => (false, t)) ∧
        slotRun q1 = (pendingTasks r.que).take (min K (pendingTasks r.que).length) ∧
        pendingTasks q1 = (pendingTasks r.que).drop (min K (pendingTasks r.que).length) := by
  have hinv := bufferInv_reachable execute K ops r hreach
  have hsize := bufferInv_size K r hinv
  obtain ⟨cs, us, a, c, ha, hK, hf, hb, hcur, hidx, hquit, hlog⟩ := hinv
  have hpend : pendingTasks r.que = us := pendingTasks_eq r.que cs us hf
  have hcopy := copyToBackBuffer_eq r.que cs us hslots hf
  rw [hsize] at hcopy
  rw [hpend]
  refine ⟨_, hcopy, rfl, ?_, ?_⟩
  · have := slotRun_of_form
      { r.que with
        index_executor := 0
        popped := r.que.popped + cs.length
        front_buffer :=
          (us.take (min K us.length)).map (fun t => (true, t)) ++
            (us.drop (min K us.length)).map (fun t => (false, t))
        back_buffer :=
          (List.range' (r.que.popped + cs.length) (min K us.length)).map some ++
            List.replicate (K - min K us.length) none }
      (us.take (min K us.length)) (us.drop (min K us.length)) 0 (K - min K us.length)
      (Nat.zero_le _) rfl (by simp)
    simpa using this
  · exact pendingTasks_eq _ (us.take (min K us.length)) (us.drop (min K us.length)) rfl


/-- Witness of C12 (amended): capacity 2 and the tasks 1, 2, 3 pushed as one
vector; the swap leaves the entries of 1 and 2 consumed at the head and 3
pending. -/
theorem copyToBackBuffer_prunes_old_consumed_witness :
    ∃ q1 : Que Nat,
      copyToBackBuffer (pushBackVector (construct 2) [1, 2, 3]).2 = .ok (2, q1) ∧
        q1.front_buffer = [(true, 1), (true, 2), (false, 3)] ∧
        slotRun q1 = [1, 2] ∧ pendingTasks q1 = [3] :=
  copyToBackBuffer_prunes_old_consumed (fun _ => 0) 2 [Op.pushBack (PushArg.vector [1, 2, 3])]
    ⟨(pushBackVector (construct 2) [1, 2, 3]).2, [], [1, 2, 3]⟩ rfl rfl

/-- C13, as stated, fails for capacity 0.  The constructor accepts the capacity
0, and the freshly constructed queue has cursor 0, which is not below the
capacity. -/
theorem cursor_not_below_capacity_zero :
    ∃ r : Run Char,
      runOps (fun _ => 0) (Run.fresh 0) [] = some r ∧
        getBackBufferSize r.que = 0 ∧
        ¬ (r.que.index_executor < getBackBufferSize r.que) :=
  ⟨Run.fresh 0, rfl, rfl, by decide⟩

/-- C13, amended.  In every state reachable from construction with capacity
`K` by `pushBack`, `copyToBackBuffer`, `executeBatch` and `executeTask`, the
capacity is still `K`; when `K ≥ 1` the cursor `index_executor` is below `K`,
and when `K = 0` the cursor is 0. -/
theorem cursor_in_range (execute : T → Int) (K : Nat) (ops : List (Op T)) (r : Run T)
    (hreach : runOps execute (Run.fresh K) ops = some r) :
    getBackBufferSize r.que = K ∧
      (1 ≤ K → r.que.index_executor < K) ∧ (K = 0 → r.que.index_executor = 0) := by
  have hinv := bufferInv_reachable execute K ops r hreach
  have hsize := bufferInv_size K r hinv
  obtain ⟨cs, us, a, c, ha, hK, hf, hb, hcur, hidx, hquit, hlog⟩ := hinv
  refine ⟨hsize, ?_, ?_⟩
  · intro h1
    rcases hidx with h0 | hlt
    · omega
    · exact hlt
  · intro h0
    rcases hidx with h | hlt
    · exact h
    · omega


/-- Witness of C13 (amended): capacity 2, the tasks 1 and 2 pushed, one swap
and one `executeTask`; the cursor is 1. -/
theorem cursor_in_range_witness :
    getBackBufferSize
        (⟨1, 0, false, false, false, 2, true, 1, [(true, 1), (true, 2)], [none, some 1], 0⟩ :
          Que Nat) = 2 ∧
      (1 ≤ 2 →
        (⟨1, 0, false, false, false, 2, true, 1, [(true, 1), (true, 2)], [none, some 1], 0⟩ :
          Que Nat).index_executor < 2) ∧
      (2 = 0 →
        (⟨1, 0, false, false, false, 2, true, 1, [(true, 1), (true, 2)], [none, some 1], 0⟩ :
          Que Nat).index_executor = 0) :=
  cursor_in_range (fun _ => 0) 2
    [Op.pushBack (PushArg.vector [1, 2]), Op.copyToBackBuffer, Op.executeTask]
    ⟨⟨1, 0, false, false, false, 2, true, 1, [(true, 1), (true, 2)], [none, some 1], 0⟩,
      [1], [1, 2]⟩
    (by
      simp [runOps, applyOp, Run.fresh, construct, pushBackArg, pushBackVector, pushBackLoop,
        PushArg.tasks, copyToBackBuffer, copyLoop, isBackBufferExecuted,
        isBackBufferExecutedFrom, getBackBufferSize, executeTask, areAllTasksExecuted,
        getFrontBufferSize, deref])


theorem copyLoopPops_end (q : Que T) (itr cc : Nat) (h : q.front_buffer.get? itr = none) :
    copyLoopPops q itr cc = [] := by
  rw [copyLoopPops]
  split
  · rfl
  · next heq => exact absurd (h.symm.trans heq) (by simp)
  · next heq => exact absurd (h.symm.trans heq) (by simp)

theorem copyLoopPops_consumed (q : Que T) (itr cc : Nat) (t : T)
    (h : q.front_buffer.get? itr = some (true, t)) :
    copyLoopPops q itr cc =
      (itr, q.back_buffer.contains (some q.popped)) ::
        copyLoopPops { q with front_buffer := q.front_buffer.tail, popped := q.popped + 1 } 0
          cc := by
  rw [copyLoopPops]
  split
  · next heq => exact absurd (h.symm.trans heq) (by simp)
  · rfl
  · next heq => exact absurd (h.symm.trans heq) (by simp)

theorem copyLoopPops_full (q : Que T) (itr cc : Nat) (t : T)
    (h : q.front_buffer.get? itr = some (false, t)) (hfull : cc ≥ getBackBufferSize q) :
    copyLoopPops q itr cc = [] := by
  rw [copyLoopPops]
  split
  · next heq => exact absurd (h.symm.trans heq) (by simp)
  · next heq => exact absurd (h.symm.trans heq) (by simp)
  · rw [if_pos hfull]

theorem copyLoopPops_copy (q : Que T) (itr cc : Nat) (t : T)
    (h : q.front_buffer.get? itr = some (false, t)) (hroom : cc < getBackBufferSize q) :
    copyLoopPops q itr cc =
      copyLoopPops
        { q with
          front_buffer := q.front_buffer.set itr (true, t)
          back_buffer := q.back_buffer.set cc (some (q.popped + itr)) }
        (itr + 1) (cc + 1) := by
  rw [copyLoopPops]
  split
  · next heq => exact absurd (h.symm.trans heq) (by simp)
  · next heq => exact absurd (h.symm.trans heq) (by simp)
  · next t2 heq =>
    rw [h] at heq
    cases heq
    rw [if_neg (Nat.not_le.mpr hroom)]

theorem contains_replicate_none (n p : Nat) :
    (List.replicate n (none : Option Nat)).contains (some p) = false := by
  induction n with
  | zero => rfl
  | succ n ih => simp [List.replicate_succ]

theorem copyLoopPops_prune (cs : List T) :
    ∀ (q : Que T) (rest : List (Bool × T)) (cc n : Nat),
      q.front_buffer = cs.map (fun t => (true, t)) ++ rest →
      q.back_buffer = List.replicate n none →
      copyLoopPops q 0 cc =
        List.replicate cs.length (0, false) ++
          copyLoopPops { q with front_buffer := rest, popped := q.popped + cs.length } 0 cc := by
  induction cs with
  | nil =>
    intro q rest cc n h _
    cases q
    simp_all
  | cons x cs ih =>
    intro q rest cc n h hb
    have h0 : q.front_buffer.get? 0 = some (true, x) := by rw [h]; rfl
    have hc : q.back_buffer.contains (some q.popped) = false := by
      rw [hb]; exact contains_replicate_none _ _
    rw [copyLoopPops_consumed q 0 cc x h0, hc]
    rw [ih { q with front_buffer := q.front_buffer.tail, popped := q.popped + 1 } rest cc n
      (by rw [h]; rfl) hb]
    simp [List.replicate_succ, Nat.add_assoc, Nat.add_comm 1]

theorem copyLoopPops_mark (us : List T) :
    ∀ (q : Que T) (pre : List (Bool × T)) (cc : Nat),
      q.front_buffer = pre ++ us.map (fun t => (false, t)) →
      copyLoopPops q pre.length cc = [] := by
  induction us with
  | nil =>
    intro q pre cc hf
    exact copyLoopPops_end q _ _ (by rw [hf]; simp)
  | cons u us ih =>
    intro q pre cc hf
    have hget : q.front_buffer.get? pre.length = some (false, u) := by
      rw [hf]; exact get?_length_append pre _ _
    by_cases hroom : cc < getBackBufferSize q
    · rw [copyLoopPops_copy q _ _ u hget hroom]
      have := ih
        { q with
          front_buffer := q.front_buffer.set pre.length (true, u)
          back_buffer := q.back_buffer.set cc (some (q.popped + pre.length)) }
        (pre ++ [(true, u)]) (cc + 1) (by rw [hf]; simp [set_length_append])
      simpa using this
    · exact copyLoopPops_full q _ _ u hget (Nat.le_of_not_lt hroom)


theorem copyToBackBufferPops_eq (q : Que T) (cs us : List T)
    (hfront : q.front_buffer =
      cs.map (fun t => (true, t)) ++ us.map (fun t => (false, t))) :
    copyToBackBufferPops q =
        (if isBackBufferExecuted q then List.replicate cs.length (0, false) else []) ∧
      (copyToBackBufferState q).popped = q.popped + (copyToBackBufferPops q).length := by
  by_cases hex : isBackBufferExecuted q = true
  · have hpops : copyToBackBufferPops q = List.replicate cs.length (0, false) := by
      unfold copyToBackBufferPops
      rw [hex]
      simp only [Bool.not_true, Bool.false_eq_true, if_false]
      rw [copyLoopPops_prune cs
        { q with
          back_buffer := List.replicate q.back_buffer.length none
          index_executor := 0 } (us.map (fun t => (false, t))) 0 q.back_buffer.length hfront
        rfl]
      have hmark := copyLoopPops_mark us
        { q with
          back_buffer := List.replicate q.back_buffer.length none
          index_executor := 0
          front_buffer := us.map (fun t => (false, t))
          popped := q.popped + cs.length } [] 0 (by simp)
      simp only [List.length_nil] at hmark
      rw [hmark, List.append_nil]
    have hcopy := copyToBackBuffer_eq q cs us hex hfront
    have hstate : (copyToBackBufferState q).popped = q.popped + cs.length := by
      unfold copyToBackBuffer at hcopy
      rw [hex] at hcopy
      simp only [Bool.not_true, Bool.false_eq_true, if_false, Except.ok.injEq] at hcopy
      unfold copyToBackBufferState
      rw [hex]
      simp only [Bool.not_true, Bool.false_eq_true, if_false]
      rw [hcopy]
    rw [hpops, hstate, hex]
    simp
  · have hex' : isBackBufferExecuted q = false := by
      cases h : isBackBufferExecuted q with
      | false => rfl
      | true => exact absurd h hex
    simp [copyToBackBufferPops, copyToBackBufferState, hex']

theorem slot_of_form (q : Que T) (cs us : List T) (a c : Nat) (ha : a ≤ cs.length)
    (hf : q.front_buffer = cs.map (fun t => (true, t)) ++ us.map (fun t => (false, t)))
    (hb : q.back_buffer =
      List.replicate a none ++ (List.range' (q.popped + a) (cs.length - a)).map some ++
        List.replicate c none)
    (i p : Nat) (h : q.back_buffer.get? i = some (some p)) :
    p = q.popped + i ∧ a ≤ i ∧ ∃ t, q.front_buffer.get? i = some (true, t) ∧
      deref q p = some t := by
  rw [hb, List.get?_eq_getElem?, List.append_assoc, List.getElem?_append] at h
  by_cases h1 : i < a
  · simp [h1] at h
  · simp only [List.length_replicate, h1, if_false, List.getElem?_append, List.length_map,
      List.length_range'] at h
    by_cases h2 : i - a < cs.length - a
    · simp only [h2, if_true, List.getElem?_map] at h
      have hr : (List.range' (q.popped + a) (cs.length - a))[i - a]? =
          some (q.popped + a + (i - a)) := by
        rw [List.getElem?_range' _ _ h2]; simp
      rw [hr] at h
      simp only [Option.map_some', Option.some.injEq] at h
      have hp : p = q.popped + i := by omega
      have hi : i < cs.length := by omega
      obtain ⟨pre, t, post, rfl, hpre⟩ := split_at_index cs i hi
      refine ⟨hp, by omega, t, ?_, ?_⟩
      · rw [hf, ← hpre]
        have := get?_length_append (pre.map (fun t => (true, t))) (true, t)
          (post.map (fun t => (true, t)) ++ us.map (fun t => (false, t)))
        simpa using this
      · have := deref_at q (pre.map (fun t => (true, t))) (true, t)
          (post.map (fun t => (true, t)) ++ us.map (fun t => (false, t)))
          (by rw [hf]; simp)
        rw [hp, ← hpre]
        simpa using this
    · simp only [h2, if_false] at h
      rw [List.getElem?_replicate] at h
      split at h <;> simp at h

/-- C14 (slot validity invariant).  In every state reachable from construction
by `pushBack`, `copyToBackBuffer`, `executeBatch` (and also `executeTask`):
the front buffer is its consumed entries followed by its not-yet-consumed
ones, with at most `K` consumed entries; every non-empty batch slot `i` holds
the address of the node at position `i` of the front buffer, which is present
and marked consumed; and in a `copyToBackBuffer` call made in that state every
`pop_front` happens with the iterator at position 0, the node it removes, and
removes a node no batch slot points at (the number of such calls is the number
of nodes the swap frees). -/
theorem slot_validity_invariant (execute : T → Int) (K : Nat) (ops : List (Op T)) (r : Run T)
    (hreach : runOps execute (Run.fresh K) ops = some r) :
    (∃ cs us : List T,
        r.que.front_buffer = cs.map (fun t => (true, t)) ++ us.map (fun t => (false, t)) ∧
          cs.length ≤ K) ∧
      (∀ i p, r.que.back_buffer.get? i = some (some p) →
        p = r.que.popped + i ∧
          ∃ t, r.que.front_buffer.get? i = some (true, t) ∧ deref r.que p = some t) ∧
      (∀ pop ∈ copyToBackBufferPops r.que, pop = (0, false)) ∧
      (copyToBackBufferState r.que).popped =
        r.que.popped + (copyToBackBufferPops r.que).length := by
  have hinv := bufferInv_reachable execute K ops r hreach
  obtain ⟨cs, us, a, c, ha, hK, hf, hb, hcur, hidx, hquit, hlog⟩ := hinv
  have hpops := copyToBackBufferPops_eq r.que cs us hf
  refine ⟨⟨cs, us, hf, by omega⟩, ?_, ?_, hpops.2⟩
  · intro i p h
    obtain ⟨h1, _, t, h2, h3⟩ := slot_of_form r.que cs us a c ha hf hb i p h
    exact ⟨h1, t, h2, h3⟩
  · intro pop hpop
    rw [hpops.1] at hpop
    split at hpop
    · exact (List.mem_replicate.mp hpop).2
    · cases hpop


theorem exampleRun_reachable :
    runOps (fun _ => 0) (Run.fresh 2) exampleOps = some exampleRun := by
  simp [exampleOps, exampleRun, runOps, applyOp, Run.fresh, construct, pushBackArg, pushBack,
    pushBackVector, pushBackLoop, PushArg.tasks, copyToBackBuffer, copyLoop,
    isBackBufferExecuted, isBackBufferExecutedFrom, getBackBufferSize, executeBatch,
    executeBatchLoop, deref]

/-- Witness of C14: the state `exampleRun`, whose slots 0 and 1 point at the
nodes of the consumed tasks 3 and 4. -/
theorem slot_validity_invariant_witness :
    (∃ cs us : List Nat,
        exampleRun.que.front_buffer =
            cs.map (fun t => (true, t)) ++ us.map (fun t => (false, t)) ∧
          cs.length ≤ 2) ∧
      (∀ i p, exampleRun.que.back_buffer.get? i = some (some p) →
        p = exampleRun.que.popped + i ∧
          ∃ t, exampleRun.que.front_buffer.get? i = some (true, t) ∧
            deref exampleRun.que p = some t) ∧
      (∀ pop ∈ copyToBackBufferPops exampleRun.que, pop = (0, false)) ∧
      (copyToBackBufferState exampleRun.que).popped =
        exampleRun.que.popped + (copyToBackBufferPops exampleRun.que).length :=
  slot_validity_invariant (fun _ => 0) 2 exampleOps exampleRun exampleRun_reachable


theorem quitWait_not_running (execute : T → Int) (fuel : Nat) (w : World T)
    (h : w.que.is_autoexecution_thread_running = false) :
    quitWait execute fuel w =
      some (.ok { w with que := { w.que with is_quit_requested := false } }) := by
  cases fuel <;> simp [quitWait, h]

theorem quitThread_not_running (execute : T → Int) (fuel : Nat) (w : World T)
    (hrun : w.que.is_autoexecution_thread_running = false)
    (hquit : w.que.is_quit_requested = false) :
    quitThread execute fuel w =
      some (.ok { w with que := { w.que with autoexecution_command := false } }) := by
  unfold quitThread
  rw [hquit]
  simp only [Bool.false_eq_true, if_false]
  rw [quitWait_not_running execute fuel _ (by simp [World.doAutoExecution, doAutoExecution, hrun])]
  cases w with
  | mk que threads executed =>
    cases que
    simp_all [World.doAutoExecution, doAutoExecution]

/-- C15, as stated, fails.  On a freshly constructed queue (no worker) the
first `quitThread` returns with `is_quit_requested` cleared again, so a second
call right after it does not take the `quit() is already requested` branch. -/
theorem quitThread_second_call_not_early :
    ∃ w1 : World Char,
      quitThread (fun _ => 0) 0 (World.fresh 3) = some (.ok w1) ∧
        quitAlreadyRequested w1 = false :=
  ⟨World.fresh 3, rfl, rfl⟩

/-- C15, amended.  In a state with no worker running, `quitThread` returns, and
a second call right after it returns in the same state as the first.  The
second call takes the `quit() is already requested` branch exactly when
`is_quit_requested` was already set before the first call; otherwise the first
call clears the flag again and the second call repeats the whole protocol. -/
theorem quitThread_twice (execute : T → Int) (fuel : Nat) (w : World T)
    (hrun : w.que.is_autoexecution_thread_running = false) :
    ∃ w1 : World T,
      quitThread execute fuel w = some (.ok w1) ∧
        quitThread execute fuel w1 = some (.ok w1) ∧
        quitAlreadyRequested w1 = quitAlreadyRequested w ∧
        w1.que.is_autoexecution_thread_running = false ∧
        w1.que.front_buffer = w.que.front_buffer ∧
        w1.executed = w.executed := by
  by_cases hquit : w.que.is_quit_requested = true
  · have h1 : quitThread execute fuel w = some (.ok w) := by simp [quitThread, hquit]
    exact ⟨w, h1, h1, rfl, hrun, rfl, rfl⟩
  · have hquit' : w.que.is_quit_requested = false := by
      cases h : w.que.is_quit_requested with
      | false => rfl
      | true => exact absurd h hquit
    refine ⟨{ w with que := { w.que with autoexecution_command := false } },
      quitThread_not_running execute fuel w hrun hquit', ?_, ?_, hrun, rfl, rfl⟩
    · exact quitThread_not_running execute fuel _ hrun hquit'
    · simp [quitAlreadyRequested]

/-- Witness of C15 (amended): a queue with a pending task, the command flag
set and no worker running. -/
theorem quitThread_twice_witness :
    ∃ w1 : World Nat,
      quitThread (fun _ => 0) 1
          ({ que := { (construct 2 : Que Nat) with
                autoexecution_command := true, front_buffer := [(false, 5)] }
             threads := [], executed := [] }) = some (.ok w1) ∧
        quitThread (fun _ => 0) 1 w1 = some (.ok w1) ∧
        quitAlreadyRequested w1 =
          quitAlreadyRequested
            ({ que := { (construct 2 : Que Nat) with
                autoexecution_command := true, front_buffer := [(false, 5)] }
               threads := [], executed := [] } : World Nat) ∧
        w1.que.is_autoexecution_thread_running = false ∧
        w1.que.front_buffer = [(false, 5)] ∧
        w1.executed = [] :=
  quitThread_twice (fun _ => 0) 1
    ({ que := { (construct 2 : Que Nat) with
          autoexecution_command := true, front_buffer := [(false, 5)] }
       threads := [], executed := [] }) rfl


/-- C16 (global order, no loss).  In every state reachable from a fresh queue
by any interleaving of `pushBack` calls with `copyToBackBuffer`, `executeBatch`
(and also `executeTask`) steps, the tasks executed so far, followed by the
tasks of the non-empty batch slots in slot order, followed by the
not-yet-consumed tasks of the front buffer in order, are the accepted pushed
tasks in push order. -/
theorem global_order_no_loss (execute : T → Int) (K : Nat) (ops : List (Op T)) (r : Run T)
    (hreach : runOps execute (Run.fresh K) ops = some r) :
    r.executed ++ slotRun r.que ++ pendingTasks r.que = r.pushed := by
  have hinv := bufferInv_reachable execute K ops r hreach
  obtain ⟨cs, us, a, c, ha, hK, hf, hb, hcur, hidx, hquit, hlog⟩ := hinv
  rw [slotRun_of_form r.que cs us a c ha hf hb, pendingTasks_eq r.que cs us hf]
  exact hlog

/-- Witness of C16: the state `exampleRun`; 1, 2 executed, 3, 4 in the slots,
and a push made between the first swap and the second. -/
theorem global_order_no_loss_witness :
    exampleRun.executed ++ slotRun exampleRun.que ++ pendingTasks exampleRun.que =
      exampleRun.pushed :=
  global_order_no_loss (fun _ => 0) 2 exampleOps exampleRun exampleRun_reachable

theorem takeWhile_isSome_map (l : List (Option Nat)) :
    l.takeWhile Option.isSome = ((l.takeWhile Option.isSome).filterMap id).map some := by
  induction l with
  | nil => rfl
  | cons x l ih =>
    cases x with
    | none => simp
    | some p =>
      simp only [List.takeWhile_cons, Option.isSome_some, if_true, List.filterMap_cons, id,
        List.map_cons]
      rw [← ih]

theorem dropWhile_isSome_head (l : List (Option Nat)) :
    l.dropWhile Option.isSome = [] ∨ ∃ rest, l.dropWhile Option.isSome = none :: rest := by
  induction l with
  | nil => exact Or.inl rfl
  | cons x l ih =>
    cases x with
    | none => exact Or.inr ⟨l, by simp⟩
    | some p => simpa using ih

theorem dropWhile_eq_drop_length (l : List (Option Nat)) :
    l.dropWhile Option.isSome = l.drop (l.takeWhile Option.isSome).length := by
  induction l with
  | nil => rfl
  | cons x l ih =>
    cases x with
    | none => simp
    | some p => simpa using ih

theorem executeBatchLoop_general (execute : T → Int) (ps : List Nat) :
    ∀ (q : Que T) (bpre rest : List (Option Nat)) (n : Nat) (log : List T),
      q.back_buffer = bpre ++ ps.map some ++ rest →
      (rest = [] ∨ ∃ tl, rest = none :: tl) →
      (∀ p ∈ ps, (deref q p).isSome = true) →
      ps.length ≤ n →
      executeBatchLoop execute n bpre.length q log =
        .ok ({ q with
                back_buffer := bpre ++ List.replicate ps.length none ++ rest
                index_executor := q.index_executor + ps.length },
              log ++ ps.filterMap (deref q)) := by
  induction ps with
  | nil =>
    intro q bpre rest n log hb hrest _ _
    have hb1 : q.back_buffer = bpre ++ rest := by simpa using hb
    have hq : ({ q with
                back_buffer := bpre ++ List.replicate ([] : List Nat).length none ++ rest
                index_executor := q.index_executor + ([] : List Nat).length } : Que T) = q := by
      cases q; simp_all
    rw [hq]
    simp only [List.filterMap_nil, List.append_nil]
    cases n with
    | zero => rfl
    | succ n =>
      rcases hrest with hnil | ⟨tl, htl⟩
      · have hg : q.back_buffer.get? bpre.length = none := by rw [hb1, hnil]; simp
        simp only [executeBatchLoop, hg]
      · have hg : q.back_buffer.get? bpre.length = some none := by
          rw [hb1, htl]; exact get?_length_append _ _ _
        simp only [executeBatchLoop, hg]
  | cons p ps ih =>
    intro q bpre rest n log hb hrest hvalid hn
    cases n with
    | zero => simp at hn
    | succ n =>
      have hb0 : q.back_buffer = bpre ++ some p :: (ps.map some ++ rest) := by
        rw [hb]; simp
      have hg : q.back_buffer.get? bpre.length = some (some p) := by
        rw [hb0]; exact get?_length_append _ _ _
      obtain ⟨t, ht⟩ := Option.isSome_iff_exists.mp (hvalid p (List.mem_cons_self _ _))
      have hset : q.back_buffer.set bpre.length none = (bpre ++ [none]) ++ ps.map some ++ rest := by
        rw [hb0, set_length_append]; simp
      have := ih { q with
            back_buffer := q.back_buffer.set bpre.length none
            index_executor := q.index_executor + 1 }
          (bpre ++ [none]) rest n (log ++ [t]) hset hrest
          (fun p' hp' => hvalid p' (List.mem_cons_of_mem _ hp')) (by simpa using hn)
      simp only [List.length_append, List.length_singleton] at this
      simp only [executeBatchLoop, hg, ht]
      rw [this]
      have hd : (deref { q with
            back_buffer := q.back_buffer.set bpre.length none
            index_executor := q.index_executor + 1 } : Nat → Option T) = deref q := rfl
      rw [hd]
      have hi : q.index_executor + 1 + ps.length = q.index_executor + (ps.length + 1) := by
        omega
      simp only [List.length_cons, List.filterMap_cons, ht, hi, List.replicate_succ]
      simp


theorem length_takeWhile_isSome_le (l : List (Option Nat)) :
    (l.takeWhile Option.isSome).length ≤ l.length := by
  induction l with
  | nil => exact Nat.le_refl _
  | cons x l ih =>
    cases x with
    | none => simp
    | some p => simpa using ih

theorem filterMap_id_filterMap (f : Nat → Option T) (l : List (Option Nat)) :
    (l.filterMap id).filterMap f = l.filterMap (fun slot => slot.bind f) := by
  induction l with
  | nil => rfl
  | cons x l ih =>
    cases x with
    | none => simpa using ih
    | some p =>
      simp only [List.filterMap_cons, id, Option.some_bind]
      cases f p <;> simp [ih]

theorem executeBatchLoop_executor_irrelevant (execute execute' : T → Int) :
    ∀ (n i : Nat) (q : Que T) (log : List T),
      executeBatchLoop execute' n i q log = executeBatchLoop execute n i q log := by
  intro n
  induction n with
  | zero => intro i q log; rfl
  | succ n ih =>
    intro i q log
    simp only [executeBatchLoop]
    split
    · rfl
    · rfl
    · split
      · rfl
      · exact ih _ _ _

theorem executeBatchLoop_error (execute : T → Int) :
    ∀ (n i : Nat) (q : Que T) (log : List T) (e : Err),
      executeBatchLoop execute n i q log = .error e →
      e = .undefined_behaviour "dangling task pointer" := by
  intro n
  induction n with
  | zero => intro i q log e h; cases h
  | succ n ih =>
    intro i q log e h
    simp only [executeBatchLoop] at h
    split at h
    · cases h
    · cases h
    · split at h
      · cases h; rfl
      · exact ih _ _ _ e h

/-- C17 (postcondition of `executeBatch`).  With the cursor `c` below the
capacity and the pointers of the slots it runs over referring to nodes of the
list, `executeBatch` invokes the executor on the tasks of slots `c`, `c+1`, ...
up to the first empty slot or the end, in that order, empties exactly those
slots, leaves the other slots and the front buffer as they were, sets the
cursor to 0 and returns 0.  If slot `c` is empty nothing is executed and only
the cursor changes.  The result is the same for every executor, whatever
statuses it returns.  The call throws the out-of-bounds error exactly when
`c` is not below the capacity. -/
theorem executeBatch_postcondition (execute execute' : T → Int) (q : Que T) :
    (q.index_executor < getBackBufferSize q →
      (∀ p, some p ∈ (q.back_buffer.drop q.index_executor).takeWhile Option.isSome →
        (deref q p).isSome = true) →
      executeBatch execute q =
        .ok (0,
          { q with
            back_buffer :=
              q.back_buffer.take q.index_executor ++
                List.replicate
                  ((q.back_buffer.drop q.index_executor).takeWhile Option.isSome).length none ++
                q.back_buffer.drop (q.index_executor +
                  ((q.back_buffer.drop q.index_executor).takeWhile Option.isSome).length)
            index_executor := 0 },
          ((q.back_buffer.drop q.index_executor).takeWhile Option.isSome).filterMap
            (fun slot => slot.bind (deref q)))) ∧
      (q.back_buffer.get? q.index_executor = some none →
        executeBatch execute q = .ok (0, { q with index_executor := 0 }, [])) ∧
      executeBatch execute' q = executeBatch execute q ∧
      (executeBatch execute q = .error (.thrown "Execution index is bigger than buffer size") ↔
        q.index_executor ≥ getBackBufferSize q) := by
  refine ⟨?_, ?_, ?_, ?_⟩
  · intro hc hvalid
    have hrun := takeWhile_isSome_map (q.back_buffer.drop q.index_executor)
    have hsplit : q.back_buffer =
        q.back_buffer.take q.index_executor ++
          (((q.back_buffer.drop q.index_executor).takeWhile Option.isSome).filterMap id).map
            some ++
          (q.back_buffer.drop q.index_executor).dropWhile Option.isSome := by
      rw [← hrun, List.append_assoc, List.takeWhile_append_dropWhile, List.take_append_drop]
    have hlen : (q.back_buffer.take q.index_executor).length = q.index_executor := by
      rw [List.length_take]; exact Nat.min_eq_left (Nat.le_of_lt hc)
    have hpslen : (((q.back_buffer.drop q.index_executor).takeWhile Option.isSome).filterMap
        id).length = ((q.back_buffer.drop q.index_executor).takeWhile Option.isSome).length := by
      conv => rhs; rw [hrun]
      rw [List.length_map]
    have hgen := executeBatchLoop_general execute
      (((q.back_buffer.drop q.index_executor).takeWhile Option.isSome).filterMap id) q
      (q.back_buffer.take q.index_executor)
      ((q.back_buffer.drop q.index_executor).dropWhile Option.isSome)
      (getBackBufferSize q - q.index_executor) [] hsplit
      (dropWhile_isSome_head _)
      (by
        intro p hp
        apply hvalid p
        rw [hrun]
        exact List.mem_map_of_mem some hp)
      (by
        rw [hpslen]
        have h1 := length_takeWhile_isSome_le (q.back_buffer.drop q.index_executor)
        rw [List.length_drop] at h1
        exact h1)
    rw [hlen, hpslen] at hgen
    unfold executeBatch
    rw [if_neg (Nat.not_le.mpr hc), hgen]
    simp only [List.nil_append]
    have hdrop : (q.back_buffer.drop q.index_executor).dropWhile Option.isSome =
        q.back_buffer.drop (q.index_executor +
          ((q.back_buffer.drop q.index_executor).takeWhile Option.isSome).length) := by
      rw [dropWhile_eq_drop_length, List.drop_drop]
    have htasks : (((q.back_buffer.drop q.index_executor).takeWhile Option.isSome).filterMap
        id).filterMap (deref q) =
        ((q.back_buffer.drop q.index_executor).takeWhile Option.isSome).filterMap
          (fun slot => slot.bind (deref q)) :=
      filterMap_id_filterMap (deref q) _
    rw [hdrop, htasks]
  · intro hslot
    have hc : q.index_executor < getBackBufferSize q := by
      by_contra hge
      rw [List.get?_eq_none.mpr (Nat.le_of_not_lt hge)] at hslot
      cases hslot
    obtain ⟨n, hn⟩ : ∃ n, getBackBufferSize q - q.index_executor = n + 1 :=
      ⟨getBackBufferSize q - q.index_executor - 1, by omega⟩
    unfold executeBatch
    rw [if_neg (Nat.not_le.mpr hc), hn]
    simp only [executeBatchLoop, hslot]
  · unfold executeBatch
    rw [executeBatchLoop_executor_irrelevant execute execute']
  · constructor
    · intro h
      by_contra hlt
      unfold executeBatch at h
      rw [if_neg hlt] at h
      split at h
      · next e he =>
        have := executeBatchLoop_error execute _ _ _ _ e he
        rw [this] at h
        cases h
      · cases h
    · intro h
      unfold executeBatch
      rw [if_pos h]


/-- Witness of C17: capacity 4, cursor 1, slots 1 and 2 pointing at the tasks
11 and 12, slot 3 empty: 11 and 12 are executed and slots 1, 2 emptied; and
with the cursor on the empty slot 3 nothing is executed. -/
theorem executeBatch_postcondition_witness :
    executeBatch (fun _ => 0)
        ({ (construct 4 : Que Nat) with
          index_executor := 1
          front_buffer := [(true, 10), (true, 11), (true, 12)]
          back_buffer := [none, some 1, some 2, none] }) =
        .ok (0,
          { (construct 4 : Que Nat) with
            index_executor := 0
            front_buffer := [(true, 10), (true, 11), (true, 12)]
            back_buffer := [none, none, none, none] }, [11, 12]) ∧
      executeBatch (fun _ => 0)
        ({ (construct 4 : Que Nat) with
          index_executor := 3
          front_buffer := [(true, 10), (true, 11), (true, 12)]
          back_buffer := [none, some 1, some 2, none] }) =
        .ok (0,
          { (construct 4 : Que Nat) with
            index_executor := 0
            front_buffer := [(true, 10), (true, 11), (true, 12)]
            back_buffer := [none, some 1, some 2, none] }, []) :=
  ⟨(executeBatch_postcondition (fun _ => 0) (fun _ => 1)
      ({ (construct 4 : Que Nat) with
        index_executor := 1
        front_buffer := [(true, 10), (true, 11), (true, 12)]
        back_buffer := [none, some 1, some 2, none] })).1 (by decide)
      (by
        intro p hp
        have hp' : p = 1 ∨ p = 2 := by simpa [construct] using hp
        rcases hp' with rfl | rfl <;> rfl),
    (executeBatch_postcondition (fun _ => 0) (fun _ => 1)
      ({ (construct 4 : Que Nat) with
        index_executor := 3
        front_buffer := [(true, 10), (true, 11), (true, 12)]
        back_buffer := [none, some 1, some 2, none] })).2.1 rfl⟩

/-- C18, as stated, fails.  With capacity 1, push `A` and swap: the state is
reachable, its cursor is 0 and no task is pending (`M = 0`), so the claimed
bound is `⌈0/1⌉ + 1 = 1`; but after one iteration of the drain loop (which
executes `A` from its slot) the loop is still running. -/
theorem drainLoop_bound_exceeded :
    ∃ r : Run Char,
      runOps (fun _ => 0) (Run.fresh 1)
          [Op.pushBack (PushArg.single 'A'), Op.copyToBackBuffer] = some r ∧
        r.que.index_executor = 0 ∧
        pendingTasks r.que = [] ∧
        drainLoop (fun _ => 0) (((pendingTasks r.que).length + 1 - 1) / 1 + 1) r.que [] =
          none := by
  refine ⟨⟨⟨1, 0, false, false, false, 1, true, 0, [(true, 'A')], [some 0], 0⟩, [], ['A']⟩,
    ?_, rfl, rfl, rfl⟩
  simp [runOps, applyOp, Run.fresh, construct, pushBackArg, pushBack, PushArg.tasks,
    copyToBackBuffer, copyLoop, isBackBufferExecuted, isBackBufferExecutedFrom,
    getBackBufferSize]

/-- C18, amended.  For capacity `K ≥ 1`, in every state reachable from
construction whose cursor is 0, with `M` pending tasks and no push during the
drain, the drain loop of the worker terminates in a state with every slot
empty and an empty front buffer, having executed the tasks of the slots and
then the pending tasks: within `⌈M/K⌉ + 1` iterations when every slot is empty
at the start, and within `⌈M/K⌉ + 2` iterations otherwise (the first iteration
then executes the batch already in the slots). -/
theorem drainLoop_terminates (execute : T → Int) (K : Nat) (ops : List (Op T)) (r : Run T)
    (fuel : Nat) (hK : 1 ≤ K)
    (hreach : runOps execute (Run.fresh K) ops = some r)
    (hcursor : r.que.index_executor = 0) :
    (isBackBufferExecuted r.que = true →
      ((pendingTasks r.que).length + K - 1) / K + 1 ≤ fuel →
      ∃ qf : Que T,
        drainLoop execute fuel r.que [] = some (.ok (qf, pendingTasks r.que)) ∧
          isBackBufferExecuted qf = true ∧ qf.front_buffer = []) ∧
      (((pendingTasks r.que).length + K - 1) / K + 2 ≤ fuel →
        ∃ qf : Que T,
          drainLoop execute fuel r.que [] =
              some (.ok (qf, slotRun r.que ++ pendingTasks r.que)) ∧
            isBackBufferExecuted qf = true ∧ qf.front_buffer = []) := by
  have hinv := bufferInv_reachable execute K ops r hreach
  have hsize := bufferInv_size K r hinv
  obtain ⟨cs, us, a, c, ha, hKc, hf, hb, hcur, hidx, hquit, hlog⟩ := hinv
  have hpend : pendingTasks r.que = us := pendingTasks_eq r.que cs us hf
  have hslot : slotRun r.que = cs.drop a := slotRun_of_form r.que cs us a c ha hf hb
  rw [hpend, hslot]
  have hclean : isBackBufferExecuted r.que = true →
      ∀ n, (us.length + K - 1) / K + 1 ≤ n →
      ∃ qf : Que T,
        drainLoop execute n r.que [] = some (.ok (qf, us)) ∧
          isBackBufferExecuted qf = true ∧ qf.front_buffer = [] := by
    intro hex n hn
    obtain ⟨qf, hrun, h1, h2, _⟩ := drainLoop_clean execute us.length us rfl r.que cs [] n hex hf
      (by rw [hsize]; exact hK) (by rw [hsize]; exact hn)
    refine ⟨qf, by simpa using hrun, ?_, h1⟩
    unfold isBackBufferExecuted
    rw [h2]
    exact isBackBufferExecutedFrom_replicate _
  refine ⟨fun hex hn => hclean hex fuel hn, ?_⟩
  intro hn
  by_cases hex : isBackBufferExecuted r.que = true
  · have hacs := bufferInv_slots_empty r cs a c ha hb hex
    obtain ⟨qf, hrun, h1, h2⟩ := hclean hex fuel (by omega)
    refine ⟨qf, ?_, h1, h2⟩
    rw [hrun, hacs, List.drop_length, List.nil_append]
  · have hex' : isBackBufferExecuted r.que = false := by
      cases h : isBackBufferExecuted r.que with
      | false => rfl
      | true => exact absurd h hex
    have hlt : a < cs.length := by
      by_contra hge
      have hacs : a = cs.length := by omega
      apply hex
      unfold isBackBufferExecuted
      rw [hb, hacs]
      simp only [Nat.sub_self, List.range'_zero, List.map_nil, List.append_nil,
        List.append_replicate_replicate]
      exact isBackBufferExecutedFrom_replicate _
    have ha0 : a = 0 := by rw [← hcur hlt]; exact hcursor
    subst ha0
    have hnot : areAllTasksExecuted r.que = false := by
      cases h : areAllTasksExecuted r.que with
      | false => rfl
      | true =>
        have := ((areAllTasksExecuted_iff r.que).mp h).1
        rw [hex'] at this
        cases this
    have hexec := executeBatch_after_copy execute r.que (cs.map (fun t => (true, t)))
      (us.map (fun t => (false, t))) c hf (by simpa using hb) hcursor
      (by simp only [List.length_map]; omega)
    have hstep : swapThenExecute execute r.que =
        .ok ({ r.que with
          back_buffer := List.replicate ((cs.map (fun t => (true, t))).length + c) none },
          (cs.map (fun t => (true, t))).map Prod.snd) := by
      unfold swapThenExecute swapIfExecuted
      rw [hex']
      simp only [Bool.false_eq_true, if_false, hexec]
    have hfuel2 : 2 ≤ fuel := Nat.le_trans (Nat.le_add_left 2 _) hn
    obtain ⟨n, rfl⟩ : ∃ n, fuel = n + 1 := ⟨fuel - 1, by omega⟩
    rw [drainLoop_step execute n r.que _ [] _ hnot hstep]
    obtain ⟨qf, hrun, h1, h2, _⟩ := drainLoop_clean execute us.length us rfl
      { r.que with
        back_buffer := List.replicate ((cs.map (fun t => (true, t))).length + c) none }
      cs ([] ++ (cs.map (fun t => (true, t))).map Prod.snd) n
      (isBackBufferExecutedFrom_replicate _) hf
      (by simp only [getBackBufferSize, List.length_replicate, List.length_map]; omega)
      (by
        simp only [getBackBufferSize, List.length_replicate, List.length_map, hKc]
        omega)
    refine ⟨qf, ?_, ?_, h1⟩
    · rw [hrun]
      simp [List.map_map, Function.comp]
    · unfold isBackBufferExecuted
      rw [h2]
      exact isBackBufferExecutedFrom_replicate _


/-- Witness of C18 (amended): capacity 2.  With 1, 2, 3 pushed and every slot
empty the drain ends within 3 iterations; from `exampleRun`, whose slots hold
3 and 4 and where nothing is pending, it ends within 2 iterations. -/
theorem drainLoop_terminates_witness :
    (∃ qf : Que Nat,
        drainLoop (fun _ => 0) 3 (pushBackVector (construct 2) [1, 2, 3]).2 [] =
            some (.ok (qf, [1, 2, 3])) ∧
          isBackBufferExecuted qf = true ∧ qf.front_buffer = []) ∧
      ∃ qf : Que Nat,
        drainLoop (fun _ => 0) 2 exampleRun.que [] = some (.ok (qf, [3, 4])) ∧
          isBackBufferExecuted qf = true ∧ qf.front_buffer = [] :=
  ⟨(drainLoop_terminates (fun _ => 0) 2 [Op.pushBack (PushArg.vector [1, 2, 3])]
      ⟨(pushBackVector (construct 2) [1, 2, 3]).2, [], [1, 2, 3]⟩ 3 (by decide) rfl rfl).1
      rfl (by decide),
    (drainLoop_terminates (fun _ => 0) 2 exampleOps exampleRun 2 (by decide)
      exampleRun_reachable rfl).2 (by decide)⟩

/-- C19 (`executeTask` never dereferences an empty slot) fails on the code.
With capacity 3 and the task `A` pushed, `areAllTasksExecuted` is false while
the slot at the cursor is empty, and `executeTask` dereferences its null
pointer.  The state is met by the transient thread of `doExecution` when the
host pushes `A` after `doExecution` has returned and before the thread runs. -/
theorem executeTask_dereferences_null :
    (∃ r : Run Char,
        runOps (fun _ => 0) (Run.fresh 3) [Op.pushBack (PushArg.single 'A')] = some r ∧
          areAllTasksExecuted r.que = false ∧
          r.que.back_buffer.get? r.que.index_executor = some none ∧
          executeTask (fun _ => 0) r.que =
            .error (.undefined_behaviour "null task pointer")) ∧
      ∃ w1 w2 : World Char,
        World.doExecution (World.fresh 3) = .ok (0, w1) ∧
          w1.threads = [Pc.execution] ∧
          World.pushBack w1 'A' = (0, w2) ∧
          World.stepThread (fun _ => 0) w2 0 =
            .error (.undefined_behaviour "null task pointer") :=
  ⟨⟨_, rfl, rfl, rfl, rfl⟩, ⟨_, _, rfl, rfl, rfl, rfl⟩⟩

end GTaskQue
